import Mathlib

/-!
# Virtual-address allocator and service registry of the tunneler

A shallow embedding of `service/cziti/dns.go` (the DNS directory: `DnsInit`,
`RegisterService`, `Resolve`, `DeregisterService`, `GetService`) and of the identity list
operations of `service/ziti-tunnel/runtime/state.go` (`Find`, `RemoveByFingerprint`).

Conventions of the embedding:

* a Go `string` is a Lean `String` (a sequence of runes; byte sequences that are not UTF-8 are
  outside the type);
* a Go `map[string]V` is an association list with at most one pair per key, read with
  `mapLookup`, written with `mapInsert`, `mapDelete`; the order in which `range` visits the keys
  is not determined by the map, so `DeregisterService` receives it as an argument;
* `uint32` values are natural numbers, reduced modulo `2 ^ 32` where the code can overflow;
* a `net.IP` is its list of bytes, `nil` being the empty list;
* a panic is the result `none`.
-/

namespace Cziti

/-! ## Data model -/

/-- The type `net.IP`: a slice of bytes, most significant first; `nil` is `[]`. -/
abbrev IP := List Nat

/-- A session handle `*CZitiCtx`. `addr` is the pointer value (what `==` compares), `controller`
is `C.GoString(ctx.Options.controller)`, the only field of the context the directory reads. -/
structure CZitiCtx where
  addr : Nat
  controller : String
deriving DecidableEq, Repr

/-- The struct `ctxIp`: the value type of `hostnameMap`. -/
structure ctxIp where
  ctx : CZitiCtx
  ip : IP
  network : String
deriving DecidableEq, Repr

/-- The struct `ctxService`: the value type of `serviceMap`. -/
structure ctxService where
  ctx : CZitiCtx
  name : String
  serviceId : String
  count : Int
deriving DecidableEq, Repr

/-- The struct `dnsImpl` together with the package variable `initOnce`: `initDone` records that
`initOnce.Do` has already run its function. -/
structure dnsImpl where
  initDone : Bool
  cidr : Nat
  ipCount : Nat
  serviceMap : List (String × ctxService)
  hostnameMap : List (String × ctxIp)
deriving DecidableEq, Repr

/-- The package variable `DNS = &dnsImpl{}` with `initOnce = sync.Once{}`: every field has its
zero value and both maps are nil. -/
def DNS : dnsImpl :=
  { initDone := false, cidr := 0, ipCount := 0, serviceMap := [], hostnameMap := [] }

/-- The package constants `constants.Ipv4ip` and `constants.Ipv4DefaultMask`, defined outside the
files at hand. `Ipv4ip` is kept as the value of `net.ParseIP(constants.Ipv4ip).To4()`. -/
structure Constants where
  Ipv4ip : IP
  Ipv4DefaultMask : Int

/-! ## Go maps as association lists -/

/-- The map read `m[k]` with its `found` flag. -/
def mapLookup {V : Type} : List (String × V) → String → Option V
  | [], _ => none
  | (k', v) :: rest, k => if k' = k then some v else mapLookup rest k

/-- The map write `m[k] = v`: replaces the value of `k` or adds the pair. -/
def mapInsert {V : Type} : List (String × V) → String → V → List (String × V)
  | [], k, v => [(k, v)]
  | (k', v') :: rest, k, v =>
    if k' = k then (k, v) :: rest else (k', v') :: mapInsert rest k v

/-- The builtin `delete(m, k)`. -/
def mapDelete {V : Type} : List (String × V) → String → List (String × V)
  | [], _ => []
  | (k', v') :: rest, k => if k' = k then mapDelete rest k else (k', v') :: mapDelete rest k

/-- The keys of a map, in the order of the association list. -/
def mapKeys {V : Type} (m : List (String × V)) : List String := m.map Prod.fst

/-! ## Standard-library helpers used by `dns.go` -/

/-- The predicate `unicode.IsSpace`: the Latin-1 spaces and the other runes of the Unicode
`White_Space` property. -/
def IsSpace (r : Char) : Bool :=
  let n := r.toNat
  if n ≤ 0xFF then
    decide (n = 0x09 ∨ n = 0x0A ∨ n = 0x0B ∨ n = 0x0C ∨ n = 0x0D ∨ n = 0x20 ∨ n = 0x85 ∨ n = 0xA0)
  else
    decide (n = 0x1680 ∨ (0x2000 ≤ n ∧ n ≤ 0x200A) ∨ n = 0x2028 ∨ n = 0x2029 ∨ n = 0x202F
      ∨ n = 0x205F ∨ n = 0x3000)

/-- The function `strings.TrimSpace`: drops the leading and the trailing white space. -/
def TrimSpace (s : String) : String :=
  ⟨((s.data.dropWhile IsSpace).reverse.dropWhile IsSpace).reverse⟩

/-- The call `strings.HasSuffix(s, ".")`: the last rune of `s` is a period. -/
def HasSuffixDot (s : String) : Bool :=
  decide (s.data.getLast? = some '.')

/-- The function `strings.ToLower`: every rune is mapped through `unicode.ToLower`. The case
tables of `unicode.ToLower` belong to the Go standard library, so the rune map is the
argument `lower`. -/
def ToLower (lower : Char → Char) (s : String) : String :=
  ⟨s.data.map lower⟩

/-- The restriction of `unicode.ToLower` to ASCII (the fast path of `strings.ToLower`): `A`..`Z`
move to `a`..`z`, every other rune stays. Used to evaluate the directory on ASCII hostnames. -/
def asciiToLower (c : Char) : Char :=
  if 'A'.toNat ≤ c.toNat ∧ c.toNat ≤ 'Z'.toNat then Char.ofNat (c.toNat + 32) else c

/-- The function `binary.BigEndian.PutUint32` on a fresh 4-byte slice. -/
def PutUint32 (v : Nat) : IP :=
  [v / 2 ^ 24 % 256, v / 2 ^ 16 % 256, v / 2 ^ 8 % 256, v % 256]

/-- The function `binary.BigEndian.Uint32`: reads the first four bytes, panics (index out of
range) on a shorter slice. -/
def Uint32 : IP → Option Nat
  | b0 :: b1 :: b2 :: b3 :: _ =>
    some ((b0 % 256) * 2 ^ 24 ||| (b1 % 256) * 2 ^ 16 ||| (b2 % 256) * 2 ^ 8 ||| (b3 % 256))
  | _ => none

/-- The byte loop of `net.CIDRMask`: `l` bytes are left to write, `n` one-bits are left. -/
def maskBytes : Nat → Nat → List Nat
  | 0, _ => []
  | l + 1, n =>
    if 8 ≤ n then 0xff :: maskBytes l (n - 8)
    else (0xff - 0xff / 2 ^ n) :: maskBytes l 0

/-- The function `net.CIDRMask(ones, bits)`: nil unless `bits` is 32 or 128 and
`0 ≤ ones ≤ bits`. -/
def CIDRMask (ones bits : Int) : IP :=
  if bits ≠ 32 ∧ bits ≠ 128 then []
  else if ones < 0 ∨ bits < ones then []
  else maskBytes (bits.toNat / 8) ones.toNat

/-! ## `dns.go` -/

/-- The function `normalizeDnsName`: trim, force a trailing period, lower-case. -/
def normalizeDnsName (lower : Char → Char) (dnsName : String) : String :=
  let dnsName := TrimSpace dnsName
  let dnsName := if !HasSuffixDot dnsName then dnsName ++ "." else dnsName
  ToLower lower dnsName

/-- The key `fmt.Sprint(dnsName, ':', port)`. `Sprint` prints the rune `':'` as the number 58
and puts a space between two operands when neither is a string, hence between 58 and the port
but not between the name and 58. -/
def serviceKey (dnsName : String) (port : Nat) : String :=
  dnsName ++ Nat.repr ':'.toNat ++ " " ++ Nat.repr port

/-- The two errors `RegisterService` builds with `fmt.Errorf`, with the values it formats. -/
inductive RegisterError where
  | anotherIdentity (svcName dnsNameToReg : String) (port : Nat)
      (currentNetwork network : String)
  | anotherService (svcName dnsNameToReg : String) (port : Nat) (serviceId : String)
deriving DecidableEq, Repr

/-- The text of the error, as `fmt.Errorf` formats it. -/
def RegisterError.Error : RegisterError → String
  | .anotherIdentity svcName dnsNameToReg port currentNetwork network =>
    "service mapping conflict for service name " ++ svcName ++ ". " ++ dnsNameToReg ++ ":"
      ++ Nat.repr port ++ " in " ++ currentNetwork
      ++ " is already mapped by another identity in " ++ network
  | .anotherService svcName dnsNameToReg port serviceId =>
    "service mapping conflict for service name " ++ svcName ++ ". " ++ dnsNameToReg ++ ":"
      ++ Nat.repr port ++ " is already mapped by service id " ++ serviceId

/-- The function `DnsInit(ip, maskBits)` on the package state. The argument `i` is the value of
`net.ParseIP(ip).To4()` (nil when the text is not an IPv4 address). Once `initOnce` has fired
the call does nothing; otherwise both maps are made, `cidr` is the address and-ed with the mask
and `ipCount` is 2. `Uint32` panics on a nil address or a nil mask. -/
def DnsInit (dns : dnsImpl) (i : IP) (maskBits : Int) : Option dnsImpl :=
  if dns.initDone then some dns
  else
    match Uint32 i, Uint32 (CIDRMask maskBits 32) with
    | some a, some m =>
      some { initDone := true, serviceMap := [], hostnameMap := [], cidr := a &&& m, ipCount := 2 }
    | _, _ => none

/-- The method `dnsImpl.RegisterService`, on the receiver `DNS` (the one value of `dnsImpl` the
package makes, which is also the value `DnsInit` fills). The result is the new package state,
the returned `net.IP` and the returned error (`none` for `nil`). -/
def RegisterService (lower : Char → Char) (K : Constants) (dns : dnsImpl)
    (svcId dnsNameToReg : String) (port : Nat) (ctx : CZitiCtx) (svcName : String) :
    Option (dnsImpl × IP × Option RegisterError) :=
  match DnsInit dns K.Ipv4ip K.Ipv4DefaultMask with
  | none => none
  | some dns =>
    let dnsName := normalizeDnsName lower dnsNameToReg
    let key := serviceKey dnsName port
    let currentNetwork := ctx.controller
    match mapLookup dns.hostnameMap dnsName with
    | some foundIp =>
      let ip := foundIp.ip
      match mapLookup dns.serviceMap key with
      | some foundContext =>
        if foundIp.network ≠ currentNetwork then
          some (dns, ip,
            some (.anotherIdentity svcName dnsNameToReg port currentNetwork foundIp.network))
        else if foundContext.serviceId ≠ svcId then
          some (dns, ip,
            some (.anotherService svcName dnsNameToReg port foundContext.serviceId))
        else
          -- `foundContext.count ++` updates the local copy of the map value, which is only
          -- logged; nothing is written back to `serviceMap`
          let foundContext : ctxService :=
            { foundContext with count := foundContext.count + 1 }
          let _logged := foundContext.count
          some (dns, ip, none)
      | none =>
        some ({ dns with
                serviceMap := mapInsert dns.serviceMap key
                  { ctx := ctx, name := svcName, serviceId := svcId, count := 1 } },
              ip, none)
    | none =>
      -- `atomic.AddUint32` stores and returns the incremented counter
      let ipCount := (dns.ipCount + 1) % 2 ^ 32
      let nextAddr := dns.cidr ||| ipCount
      let ip := PutUint32 nextAddr
      some ({ dns with
              ipCount := ipCount
              hostnameMap := mapInsert dns.hostnameMap dnsName
                { ip := ip, ctx := ctx, network := currentNetwork }
              serviceMap := mapInsert dns.serviceMap key
                { ctx := ctx, name := svcName, serviceId := svcId, count := 1 } },
            ip, none)

/-- The method `dnsImpl.Resolve`: the `ip` field of `hostnameMap[dnsName]`, nil for a missing
key (the zero value of `ctxIp`). -/
def Resolve (lower : Char → Char) (dns : dnsImpl) (toResolve : String) : IP :=
  let dnsName := normalizeDnsName lower toResolve
  match mapLookup dns.hostnameMap dnsName with
  | some e => e.ip
  | none => []

/-- The method `dnsImpl.DeregisterService`. `visit` lists the keys of `serviceMap` in the order
in which `range` hands them out. The first visited entry with the same context pointer and the
same name ends the loop: its local copy is decremented and the entry is deleted when the
decremented copy is below 1; the decremented copy is never written back. -/
def DeregisterService (dns : dnsImpl) (visit : List String) (ctx : CZitiCtx) (name : String) :
    dnsImpl :=
  match visit with
  | [] => dns
  | k :: rest =>
    match mapLookup dns.serviceMap k with
    | none => DeregisterService dns rest ctx name
    | some sc =>
      if sc.ctx.addr = ctx.addr ∧ sc.name = name then
        let sc : ctxService := { sc with count := sc.count - 1 }
        if sc.count < (1 : Int) then { dns with serviceMap := mapDelete dns.serviceMap k }
        else dns
      else DeregisterService dns rest ctx name

/-- An order in which `range dns.serviceMap` may visit the map: every key exactly once. -/
def RangeOrder (dns : dnsImpl) (visit : List String) : Prop :=
  visit.Perm (mapKeys dns.serviceMap)

/-- The method `dnsImpl.GetService`: the body returns `nil, "", nil` at once (the lookup that
follows is commented out). The context result is `none` for the nil pointer, the error result
`none` for the nil error. -/
def GetService (_dns : dnsImpl) (_ip : IP) (_port : Nat) :
    Option CZitiCtx × String × Option String :=
  (none, "", none)

/-! ## Sequences of calls -/

/-- One call on the directory. -/
inductive Call where
  | register (svcId dnsNameToReg : String) (port : Nat) (ctx : CZitiCtx) (svcName : String)
  | deregister (visit : List String) (ctx : CZitiCtx) (name : String)
  | resolve (toResolve : String)
deriving DecidableEq, Repr

/-- What a call returns. -/
inductive Outcome where
  | registered (ip : IP) (err : Option RegisterError)
  | deregistered
  | resolved (ip : IP)
deriving DecidableEq, Repr

/-- Runs one call on the package state. -/
def step (lower : Char → Char) (K : Constants) (dns : dnsImpl) :
    Call → Option (dnsImpl × Outcome)
  | .register svcId dnsNameToReg port ctx svcName =>
    match RegisterService lower K dns svcId dnsNameToReg port ctx svcName with
    | none => none
    | some (dns', ip, err) => some (dns', .registered ip err)
  | .deregister visit ctx name => some (DeregisterService dns visit ctx name, .deregistered)
  | .resolve toResolve => some (dns, .resolved (Resolve lower dns toResolve))

/-- Runs a sequence of calls, collecting the outcomes in order. -/
def run (lower : Char → Char) (K : Constants) (dns : dnsImpl) :
    List Call → Option (dnsImpl × List Outcome)
  | [] => some (dns, [])
  | c :: cs =>
    match step lower K dns c with
    | none => none
    | some (dns', o) =>
      match run lower K dns' cs with
      | none => none
      | some (dns'', os) => some (dns'', o :: os)

/-- Runs `DnsInit(ip, maskBits)` on the untouched package state and then a sequence of calls. -/
def runFromInit (lower : Char → Char) (K : Constants) (i : IP) (maskBits : Int)
    (calls : List Call) : Option (dnsImpl × List Outcome) :=
  (DnsInit DNS i maskBits).bind (fun dns => run lower K dns calls)

/-! ## Sample values -/

/-- Sample package constants: the network 100.64.0.0 with a 24-bit mask. -/
def sampleConstants : Constants := { Ipv4ip := [100, 64, 0, 0], Ipv4DefaultMask := 24 }

/-- A session of the network `N1`. -/
def sessionN1 : CZitiCtx := { addr := 0xc000100000, controller := "N1" }

/-- A session of the network `N2`. -/
def sessionN2 : CZitiCtx := { addr := 0xc000200000, controller := "N2" }

/-- The package state after `DnsInit("100.64.0.0", 24)`. -/
def initialised24 : dnsImpl :=
  { initDone := true, cidr := 1681915904, ipCount := 2, serviceMap := [], hostnameMap := [] }

/-- The package state after `DnsInit("100.64.0.0", 24)` and the registration of
`api.internal:443` as service `svc1`, named `api`, by `sessionN1`. -/
def oneService : dnsImpl :=
  { initDone := true, cidr := 1681915904, ipCount := 3,
    serviceMap :=
      [("api.internal.58 443",
        { ctx := sessionN1, name := "api", serviceId := "svc1", count := 1 })],
    hostnameMap :=
      [("api.internal.", { ctx := sessionN1, ip := [100, 64, 0, 3], network := "N1" })] }

/-- The state `oneService` after `sessionN2` has registered `api.internal:8443` as service
`svc2`, named `admin`. -/
def twoNetworks : dnsImpl :=
  { initDone := true, cidr := 1681915904, ipCount := 3,
    serviceMap :=
      [("api.internal.58 443",
        { ctx := sessionN1, name := "api", serviceId := "svc1", count := 1 }),
       ("api.internal.58 8443",
        { ctx := sessionN2, name := "admin", serviceId := "svc2", count := 1 })],
    hostnameMap :=
      [("api.internal.", { ctx := sessionN1, ip := [100, 64, 0, 3], network := "N1" })] }

/-- The state `oneService` after `sessionN1` has registered `api.internal:8443` under the same
service identifier and the same name `api`. -/
def twoPorts : dnsImpl :=
  { initDone := true, cidr := 1681915904, ipCount := 3,
    serviceMap :=
      [("api.internal.58 443",
        { ctx := sessionN1, name := "api", serviceId := "svc1", count := 1 }),
       ("api.internal.58 8443",
        { ctx := sessionN1, name := "api", serviceId := "svc1", count := 1 })],
    hostnameMap :=
      [("api.internal.", { ctx := sessionN1, ip := [100, 64, 0, 3], network := "N1" })] }

/-! ## Conditions on sequences of calls -/

/-- At most one entry of the map has a given session and service name: two keys bound to
entries with the same context pointer and the same name are one key. -/
def SingleMatch (m : List (String × ctxService)) : Prop :=
  ∀ k1 k2 sc1 sc2, mapLookup m k1 = some sc1 → mapLookup m k2 = some sc2 →
    sc1.ctx.addr = sc2.ctx.addr → sc1.name = sc2.name → k1 = k2

/-- Some key other than `key` is bound in `serviceMap` to an entry with the context pointer
`ctx` and the service name `name`. -/
def otherKeyBound (dns : dnsImpl) (key : String) (ctx : CZitiCtx) (name : String) : Bool :=
  (mapKeys dns.serviceMap).any (fun k =>
    decide (k ≠ key) &&
      match mapLookup dns.serviceMap k with
      | some sc => decide (sc.ctx.addr = ctx.addr ∧ sc.name = name)
      | none => false)

/-- The call is a `RegisterService` that writes the entry of its key (the hostname is unknown or
the key is unbound) while another key is bound to an entry with its session and service name:
the call that gives a session and name a second entry. -/
def writesSecondKey (lower : Char → Char) (dns : dnsImpl) : Call → Bool
  | .register _ dnsNameToReg port ctx svcName =>
    let dnsName := normalizeDnsName lower dnsNameToReg
    let key := serviceKey dnsName port
    ((mapLookup dns.hostnameMap dnsName).isNone || (mapLookup dns.serviceMap key).isNone)
      && otherKeyBound dns key ctx svcName
  | _ => false

/-- No call of the sequence, run from the state `dns`, gives a session and service name a
second entry at the moment it is made. -/
def noSecondKey (lower : Char → Char) (K : Constants) : dnsImpl → List Call → Bool
  | _, [] => true
  | dns, c :: cs =>
    !writesSecondKey lower dns c &&
      match step lower K dns c with
      | some (dns', _) => noSecondKey lower K dns' cs
      | none => true

end Cziti

namespace Runtime

/-! ## `state.go` -/

/-- The struct `dto.Identity`, declared outside the files at hand: the fields `state.go` reads
or writes. -/
structure Identity where
  Name : String
  FingerPrint : String
  Connected : Bool
deriving DecidableEq, Repr

/-- The struct `TunnelerState` without its device fields, which play no part in the two methods
below. `Identities` lists the identities the pointers of the slice refer to (a nil pointer, on
which `n.FingerPrint` panics, is outside the type). -/
structure TunnelerState where
  Active : Bool
  Duration : Int
  Identities : List Identity
deriving DecidableEq, Repr

/-- The loop of `TunnelerState.Find` from index `i` on. -/
def findFrom (fingerprint : String) : List Identity → Nat → Nat × Option Identity
  | [], i => (i, none)
  | n :: rest, i =>
    if n.FingerPrint = fingerprint then (i, some n) else findFrom fingerprint rest (i + 1)

/-- The method `TunnelerState.Find`: the first index whose identity has the fingerprint, with
that identity; `len(t.Identities)` and nil when there is none. -/
def TunnelerState.Find (t : TunnelerState) (fingerprint : String) : Nat × Option Identity :=
  findFrom fingerprint t.Identities 0

/-- The method `TunnelerState.RemoveByFingerprint`. -/
def TunnelerState.RemoveByFingerprint (t : TunnelerState) (fingerprint : String) :
    TunnelerState :=
  let index := (t.Find fingerprint).1
  if index < t.Identities.length then
    { t with Identities := t.Identities.take index ++ t.Identities.drop (index + 1) }
  else t

end Runtime

namespace Cziti

/-! ## Association-list lemmas -/

theorem mapLookup_mapInsert_self {V : Type} (m : List (String × V)) (k : String) (v : V) :
    mapLookup (mapInsert m k v) k = some v := by
  induction m with
  | nil => simp [mapInsert, mapLookup]
  | cons e rest ih =>
    obtain ⟨k', v'⟩ := e
    by_cases h : k' = k
    · simp [mapInsert, mapLookup, h]
    · simp [mapInsert, mapLookup, h, ih]

theorem mapLookup_mapInsert_of_ne {V : Type} (m : List (String × V)) (k k0 : String) (v : V)
    (hne : k0 ≠ k) : mapLookup (mapInsert m k v) k0 = mapLookup m k0 := by
  have hne' : ¬ k = k0 := fun h => hne h.symm
  induction m with
  | nil => simp [mapInsert, mapLookup, hne']
  | cons e rest ih =>
    obtain ⟨k', v'⟩ := e
    by_cases h : k' = k
    · subst h
      simp [mapInsert, mapLookup, hne']
    · by_cases h1 : k' = k0
      · subst h1
        simp [mapInsert, mapLookup, h]
      · simp [mapInsert, mapLookup, h, h1, ih]

theorem length_mapInsert_of_absent {V : Type} (m : List (String × V)) (k : String) (v : V)
    (habs : mapLookup m k = none) : (mapInsert m k v).length = m.length + 1 := by
  induction m with
  | nil => simp [mapInsert]
  | cons e rest ih =>
    obtain ⟨k', v'⟩ := e
    by_cases h : k' = k
    · simp [mapLookup, h] at habs
    · simp only [mapLookup, h, if_false] at habs
      simp [mapInsert, h, ih habs]

theorem mapLookup_mapDelete_self {V : Type} (m : List (String × V)) (k : String) :
    mapLookup (mapDelete m k) k = none := by
  induction m with
  | nil => simp [mapDelete, mapLookup]
  | cons e rest ih =>
    obtain ⟨k', v'⟩ := e
    by_cases h : k' = k
    · simp [mapDelete, h, ih]
    · simp [mapDelete, mapLookup, h, ih]

theorem mapLookup_mapDelete_of_ne {V : Type} (m : List (String × V)) (k k0 : String)
    (hne : k0 ≠ k) : mapLookup (mapDelete m k) k0 = mapLookup m k0 := by
  have hne' : ¬ k = k0 := fun h => hne h.symm
  induction m with
  | nil => simp [mapDelete, mapLookup]
  | cons e rest ih =>
    obtain ⟨k', v'⟩ := e
    by_cases h : k' = k
    · subst h
      simp [mapDelete, mapLookup, hne', ih]
    · by_cases h1 : k' = k0
      · subst h1
        simp [mapDelete, mapLookup, h]
      · simp [mapDelete, mapLookup, h, h1, ih]

/-! ## The branches of `RegisterService` -/

theorem DnsInit_of_initDone (dns : dnsImpl) (i : IP) (maskBits : Int)
    (hinit : dns.initDone = true) : DnsInit dns i maskBits = some dns := by
  simp [DnsInit, hinit]

theorem DnsInit_fresh (dns s : dnsImpl) (i : IP) (maskBits : Int)
    (hinit : dns.initDone = false) (h : DnsInit dns i maskBits = some s) :
    s.initDone = true ∧ s.ipCount = 2 ∧ s.serviceMap = [] ∧ s.hostnameMap = [] := by
  unfold DnsInit at h
  rw [if_neg (by simp [hinit])] at h
  split at h
  · cases h
    simp
  · cases h

/-- The hostname is unknown: a new address is taken and both maps receive an entry. -/
theorem RegisterService_newHost (lower : Char → Char) (K : Constants) (dns : dnsImpl)
    (svcId dnsNameToReg : String) (port : Nat) (ctx : CZitiCtx) (svcName : String)
    (hinit : dns.initDone = true)
    (hhost : mapLookup dns.hostnameMap (normalizeDnsName lower dnsNameToReg) = none) :
    RegisterService lower K dns svcId dnsNameToReg port ctx svcName =
      some ({ dns with
              ipCount := (dns.ipCount + 1) % 2 ^ 32
              hostnameMap := mapInsert dns.hostnameMap (normalizeDnsName lower dnsNameToReg)
                { ip := PutUint32 (dns.cidr ||| (dns.ipCount + 1) % 2 ^ 32), ctx := ctx,
                  network := ctx.controller }
              serviceMap := mapInsert dns.serviceMap
                (serviceKey (normalizeDnsName lower dnsNameToReg) port)
                { ctx := ctx, name := svcName, serviceId := svcId, count := 1 } },
            PutUint32 (dns.cidr ||| (dns.ipCount + 1) % 2 ^ 32), none) := by
  simp [RegisterService, DnsInit_of_initDone _ _ _ hinit, hhost]

/-- The hostname is known, the key is not: the key receives an entry. -/
theorem RegisterService_newPort (lower : Char → Char) (K : Constants) (dns : dnsImpl)
    (svcId dnsNameToReg : String) (port : Nat) (ctx : CZitiCtx) (svcName : String)
    (foundIp : ctxIp) (hinit : dns.initDone = true)
    (hhost : mapLookup dns.hostnameMap (normalizeDnsName lower dnsNameToReg) = some foundIp)
    (hkey : mapLookup dns.serviceMap
      (serviceKey (normalizeDnsName lower dnsNameToReg) port) = none) :
    RegisterService lower K dns svcId dnsNameToReg port ctx svcName =
      some ({ dns with
              serviceMap := mapInsert dns.serviceMap
                (serviceKey (normalizeDnsName lower dnsNameToReg) port)
                { ctx := ctx, name := svcName, serviceId := svcId, count := 1 } },
            foundIp.ip, none) := by
  simp [RegisterService, DnsInit_of_initDone _ _ _ hinit, hhost, hkey]

/-- The key is known and the network recorded for the hostname is not the caller's. -/
theorem RegisterService_otherNetwork (lower : Char → Char) (K : Constants) (dns : dnsImpl)
    (svcId dnsNameToReg : String) (port : Nat) (ctx : CZitiCtx) (svcName : String)
    (foundIp : ctxIp) (foundContext : ctxService) (hinit : dns.initDone = true)
    (hhost : mapLookup dns.hostnameMap (normalizeDnsName lower dnsNameToReg) = some foundIp)
    (hkey : mapLookup dns.serviceMap
      (serviceKey (normalizeDnsName lower dnsNameToReg) port) = some foundContext)
    (hnet : foundIp.network ≠ ctx.controller) :
    RegisterService lower K dns svcId dnsNameToReg port ctx svcName =
      some (dns, foundIp.ip,
        some (.anotherIdentity svcName dnsNameToReg port ctx.controller foundIp.network)) := by
  simp [RegisterService, DnsInit_of_initDone _ _ _ hinit, hhost, hkey, hnet]

/-- The key is known, the network agrees and the service identifier does not. -/
theorem RegisterService_otherService (lower : Char → Char) (K : Constants) (dns : dnsImpl)
    (svcId dnsNameToReg : String) (port : Nat) (ctx : CZitiCtx) (svcName : String)
    (foundIp : ctxIp) (foundContext : ctxService) (hinit : dns.initDone = true)
    (hhost : mapLookup dns.hostnameMap (normalizeDnsName lower dnsNameToReg) = some foundIp)
    (hkey : mapLookup dns.serviceMap
      (serviceKey (normalizeDnsName lower dnsNameToReg) port) = some foundContext)
    (hnet : foundIp.network = ctx.controller) (hsvc : foundContext.serviceId ≠ svcId) :
    RegisterService lower K dns svcId dnsNameToReg port ctx svcName =
      some (dns, foundIp.ip,
        some (.anotherService svcName dnsNameToReg port foundContext.serviceId)) := by
  simp [RegisterService, DnsInit_of_initDone _ _ _ hinit, hhost, hkey, hnet, hsvc]

/-- The key is known, network and service identifier agree: the state stays as it is. -/
theorem RegisterService_again (lower : Char → Char) (K : Constants) (dns : dnsImpl)
    (svcId dnsNameToReg : String) (port : Nat) (ctx : CZitiCtx) (svcName : String)
    (foundIp : ctxIp) (foundContext : ctxService) (hinit : dns.initDone = true)
    (hhost : mapLookup dns.hostnameMap (normalizeDnsName lower dnsNameToReg) = some foundIp)
    (hkey : mapLookup dns.serviceMap
      (serviceKey (normalizeDnsName lower dnsNameToReg) port) = some foundContext)
    (hnet : foundIp.network = ctx.controller) (hsvc : foundContext.serviceId = svcId) :
    RegisterService lower K dns svcId dnsNameToReg port ctx svcName =
      some (dns, foundIp.ip, none) := by
  simp [RegisterService, DnsInit_of_initDone _ _ _ hinit, hhost, hkey, hnet, hsvc]

/-! ## Claims -/

/-- C1 (uniqueness of allocated addresses), evaluated where the code breaks it. After
`DnsInit("10.0.0.4", 30)` five hostnames with five different normalized forms are registered;
the counter runs 3, 4, 5, 6, 7 and is or-ed into `cidr = 10.0.0.4`, so the first and the fifth
registration both succeed with the address 10.0.0.7. -/
theorem C1_same_address_for_two_hostnames :
    (runFromInit asciiToLower sampleConstants [10, 0, 0, 4] 30
        [.register "svc1" "a.internal" 443 sessionN1 "a",
         .register "svc2" "b.internal" 443 sessionN1 "b",
         .register "svc3" "c.internal" 443 sessionN1 "c",
         .register "svc4" "d.internal" 443 sessionN1 "d",
         .register "svc5" "e.internal" 443 sessionN1 "e"]).map Prod.snd
      = some [.registered [10, 0, 0, 7] none, .registered [10, 0, 0, 4] none,
              .registered [10, 0, 0, 5] none, .registered [10, 0, 0, 6] none,
              .registered [10, 0, 0, 7] none]
    ∧ normalizeDnsName asciiToLower "a.internal" ≠ normalizeDnsName asciiToLower "e.internal" := by
  decide

/-- C2 (same-owner re-registration), evaluated where the code breaks it. After
`DnsInit("100.64.0.0", 24)` the same session registers `api.internal:443` twice with the same
service identifier and name. Both calls succeed with 100.64.0.3 and the map keeps one entry, but
the stored reference count of that entry is 1 after the second call, not 2: the increment is
made on a copy of the map value. -/
theorem C2_stored_count_stays_one :
    (runFromInit asciiToLower sampleConstants [100, 64, 0, 0] 24
        [.register "svc1" "api.internal" 443 sessionN1 "api",
         .register "svc1" "api.internal" 443 sessionN1 "api"]).map
      (fun r => (r.2, r.1.serviceMap.length, mapLookup r.1.serviceMap "api.internal.58 443"))
      = some ([.registered [100, 64, 0, 3] none, .registered [100, 64, 0, 3] none], 1,
              some { ctx := sessionN1, name := "api", serviceId := "svc1", count := 1 }) := by
  decide

/-- C3 (reference-count teardown), evaluated where the code breaks it. After
`DnsInit("100.64.0.0", 24)` and two registrations of `api.internal:443` by the same session with
the same service identifier and name, the state is `oneService`, whose map holds the single key
`api.internal.58 443`, so `range` has one order to visit it. The first
`DeregisterService(session, "api")` already deletes the entry (the claim keeps it with count 1),
and `Resolve("api.internal")` still returns 100.64.0.3. -/
theorem C3_first_deregistration_removes_entry :
    runFromInit asciiToLower sampleConstants [100, 64, 0, 0] 24
        [.register "svc1" "api.internal" 443 sessionN1 "api",
         .register "svc1" "api.internal" 443 sessionN1 "api"]
      = some (oneService, [.registered [100, 64, 0, 3] none, .registered [100, 64, 0, 3] none])
    ∧ RangeOrder oneService ["api.internal.58 443"]
    ∧ (runFromInit asciiToLower sampleConstants [100, 64, 0, 0] 24
        [.register "svc1" "api.internal" 443 sessionN1 "api",
         .register "svc1" "api.internal" 443 sessionN1 "api",
         .deregister ["api.internal.58 443"] sessionN1 "api",
         .resolve "api.internal"]).map
      (fun r => (mapLookup r.1.serviceMap "api.internal.58 443", r.1.serviceMap, r.2))
      = some (none, [], [.registered [100, 64, 0, 3] none, .registered [100, 64, 0, 3] none,
                         .deregistered, .resolved [100, 64, 0, 3]]) := by
  refine ⟨by decide, ?_, by decide⟩
  exact List.Perm.refl _

/-- C4 (cross-network rejection), evaluated where the code breaks it. After
`DnsInit("100.64.0.0", 24)`, `sessionN1` (network `N1`) registers `api.internal:443` and
`sessionN2` (network `N2`) registers `api.internal:8443`, which is accepted: the entry of
`api.internal:8443` belongs to a session of `N2`. A later call for `api.internal:8443` by
`sessionN1`, whose network differs from `N2`, is compared with the network recorded for the
hostname (`N1`): with another service identifier it gets the service-identifier error, with
the same service identifier it succeeds. Neither gets the cross-network error. -/
theorem C4_other_network_not_rejected :
    (runFromInit asciiToLower sampleConstants [100, 64, 0, 0] 24
        [.register "svc1" "api.internal" 443 sessionN1 "api",
         .register "svc2" "api.internal" 8443 sessionN2 "admin"])
      = some (twoNetworks, [.registered [100, 64, 0, 3] none, .registered [100, 64, 0, 3] none])
    ∧ mapLookup twoNetworks.serviceMap (serviceKey (normalizeDnsName asciiToLower "api.internal") 8443)
      = some { ctx := sessionN2, name := "admin", serviceId := "svc2", count := 1 }
    ∧ sessionN1.controller ≠ sessionN2.controller
    ∧ RegisterService asciiToLower sampleConstants twoNetworks "svc3" "api.internal" 8443
        sessionN1 "other"
      = some (twoNetworks, [100, 64, 0, 3],
              some (.anotherService "other" "api.internal" 8443 "svc2"))
    ∧ RegisterService asciiToLower sampleConstants twoNetworks "svc2" "api.internal" 8443
        sessionN1 "other"
      = some (twoNetworks, [100, 64, 0, 3], none) := by
  decide

/-- C5 (cross-service rejection), evaluated where the code breaks it. After
`DnsInit("100.64.0.0", 24)`, `sessionN1` (network `N1`) registers `api.internal:443` and
`sessionN2` (network `N2`) registers `api.internal:8443` as service `svc2`; the reached state is
`twoNetworks`, where the entry of `api.internal:8443` has service identifier `svc2` and belongs
to `sessionN2`. A call for `api.internal:8443` from the same network `N2` (the same session)
with the other service identifier `svc3` is compared with the network recorded for the
hostname (`N1`) first and gets the cross-network error, not the "already mapped by service id"
error. -/
theorem C5_same_network_gets_cross_network_error :
    (runFromInit asciiToLower sampleConstants [100, 64, 0, 0] 24
        [.register "svc1" "api.internal" 443 sessionN1 "api",
         .register "svc2" "api.internal" 8443 sessionN2 "admin"])
      = some (twoNetworks, [.registered [100, 64, 0, 3] none, .registered [100, 64, 0, 3] none])
    ∧ mapLookup twoNetworks.serviceMap (serviceKey (normalizeDnsName asciiToLower "api.internal") 8443)
      = some { ctx := sessionN2, name := "admin", serviceId := "svc2", count := 1 }
    ∧ "svc3" ≠ "svc2"
    ∧ RegisterService asciiToLower sampleConstants twoNetworks "svc3" "api.internal" 8443
        sessionN2 "other"
      = some (twoNetworks, [100, 64, 0, 3],
              some (.anotherIdentity "other" "api.internal" 8443 "N2" "N1"))
    ∧ RegisterService asciiToLower sampleConstants twoNetworks "svc3" "api.internal" 8443
        sessionN2 "other"
      ≠ some (twoNetworks, [100, 64, 0, 3],
              some (.anotherService "other" "api.internal" 8443 "svc2")) := by
  decide

/-- C6 (atomicity of a failed registration). Whenever `RegisterService` returns an error, the
package state after the call is the state before it: `hostnameMap`, `serviceMap` with every
reference count, `ipCount` (and `cidr`) are what they were. This holds in every state; in a
state that is not initialised yet no error is returned at all. -/
theorem C6_failed_registration_changes_nothing (lower : Char → Char) (K : Constants)
    (dns dns' : dnsImpl) (svcId dnsNameToReg : String) (port : Nat) (ctx : CZitiCtx)
    (svcName : String) (ip : IP) (e : RegisterError)
    (hres : RegisterService lower K dns svcId dnsNameToReg port ctx svcName
      = some (dns', ip, some e)) :
    dns' = dns ∧ dns'.hostnameMap = dns.hostnameMap ∧ dns'.serviceMap = dns.serviceMap
      ∧ dns'.ipCount = dns.ipCount := by
  have key : dns' = dns := by
    by_cases hinit : dns.initDone = true
    · cases hhost : mapLookup dns.hostnameMap (normalizeDnsName lower dnsNameToReg) with
      | none =>
        rw [RegisterService_newHost lower K dns svcId dnsNameToReg port ctx svcName hinit hhost]
          at hres
        simp at hres
      | some foundIp =>
        cases hkey : mapLookup dns.serviceMap
            (serviceKey (normalizeDnsName lower dnsNameToReg) port) with
        | none =>
          rw [RegisterService_newPort lower K dns svcId dnsNameToReg port ctx svcName foundIp
            hinit hhost hkey] at hres
          simp at hres
        | some foundContext =>
          by_cases hnet : foundIp.network = ctx.controller
          · by_cases hsvc : foundContext.serviceId = svcId
            · rw [RegisterService_again lower K dns svcId dnsNameToReg port ctx svcName foundIp
                foundContext hinit hhost hkey hnet hsvc] at hres
              simp at hres
            · rw [RegisterService_otherService lower K dns svcId dnsNameToReg port ctx svcName
                foundIp foundContext hinit hhost hkey hnet hsvc] at hres
              simp only [Option.some.injEq, Prod.mk.injEq] at hres
              exact hres.1.symm
          · rw [RegisterService_otherNetwork lower K dns svcId dnsNameToReg port ctx svcName
              foundIp foundContext hinit hhost hkey hnet] at hres
            simp only [Option.some.injEq, Prod.mk.injEq] at hres
            exact hres.1.symm
    · have hfalse : dns.initDone = false := by simpa using hinit
      unfold RegisterService at hres
      cases hd : DnsInit dns K.Ipv4ip K.Ipv4DefaultMask with
      | none => simp [hd] at hres
      | some s =>
        obtain ⟨_, _, _, hh⟩ := DnsInit_fresh dns s _ _ hfalse hd
        simp [hd, hh, mapLookup] at hres
  subst key
  exact ⟨rfl, rfl, rfl, rfl⟩

/-- C6 at a concrete input: in `oneService` a call for `api.internal:443` by a session of
network `N2` fails, and the state stays `oneService`. -/
theorem C6_failed_registration_changes_nothing_witness :
    RegisterService asciiToLower sampleConstants oneService "svc2" "api.internal" 443
        sessionN2 "other"
      = some (oneService, [100, 64, 0, 3],
          some (.anotherIdentity "other" "api.internal" 443 "N2" "N1"))
    ∧ (oneService = oneService ∧ oneService.hostnameMap = oneService.hostnameMap
      ∧ oneService.serviceMap = oneService.serviceMap
      ∧ oneService.ipCount = oneService.ipCount) :=
  ⟨by decide,
   C6_failed_registration_changes_nothing asciiToLower sampleConstants oneService oneService
     "svc2" "api.internal" 443 sessionN2 "other" [100, 64, 0, 3]
     (.anotherIdentity "other" "api.internal" 443 "N2" "N1") (by decide)⟩

/-- C7 (per-hostname network exclusivity) fails as stated. After `DnsInit("100.64.0.0", 24)`
the hostname `api.internal` is registered at port 443 by `sessionN1`, so its `hostnameMap`
entry is owned by network `N1`. The call for `api.internal:8443` by `sessionN2`, whose network
is `N2`, is not rejected: it returns 100.64.0.3 without error and adds a `serviceMap` entry
that belongs to `sessionN2`. -/
theorem C7_new_port_accepted_from_other_network :
    (mapLookup oneService.hostnameMap (normalizeDnsName asciiToLower "api.internal")).map
        (fun e => e.network) = some "N1"
    ∧ sessionN2.controller ≠ "N1"
    ∧ RegisterService asciiToLower sampleConstants oneService "svc2" "api.internal" 8443
        sessionN2 "admin" = some (twoNetworks, [100, 64, 0, 3], none)
    ∧ twoNetworks.serviceMap.length = oneService.serviceMap.length + 1
    ∧ (mapLookup twoNetworks.serviceMap "api.internal.58 443").map (fun e => e.ctx.controller)
        = some "N1"
    ∧ (mapLookup twoNetworks.serviceMap "api.internal.58 8443").map (fun e => e.ctx.controller)
        = some "N2" := by
  decide

/-- C7 as amended. Let the normalized hostname have a `hostnameMap` entry owned by network `A`
in an initialised state, and let the caller's network differ from `A`. If `hostname:port`
already has a `serviceMap` entry, the call is rejected with the cross-network error and the
state stays as it was. If `hostname:port` has no entry, the call is accepted: it returns the
address of the hostname without error and adds the entry of the caller, with count 1, to
`serviceMap`, changing nothing else. -/
theorem C7_other_network_rejected_only_on_known_key (lower : Char → Char) (K : Constants)
    (dns : dnsImpl) (svcId dnsNameToReg : String) (port : Nat) (ctx : CZitiCtx)
    (svcName : String) (foundIp : ctxIp) (hinit : dns.initDone = true)
    (hhost : mapLookup dns.hostnameMap (normalizeDnsName lower dnsNameToReg) = some foundIp)
    (hnet : ctx.controller ≠ foundIp.network) :
    (∀ foundContext, mapLookup dns.serviceMap
        (serviceKey (normalizeDnsName lower dnsNameToReg) port) = some foundContext →
      RegisterService lower K dns svcId dnsNameToReg port ctx svcName =
        some (dns, foundIp.ip,
          some (.anotherIdentity svcName dnsNameToReg port ctx.controller foundIp.network)))
    ∧ (mapLookup dns.serviceMap (serviceKey (normalizeDnsName lower dnsNameToReg) port) = none →
      RegisterService lower K dns svcId dnsNameToReg port ctx svcName =
        some ({ dns with
                serviceMap := mapInsert dns.serviceMap
                  (serviceKey (normalizeDnsName lower dnsNameToReg) port)
                  { ctx := ctx, name := svcName, serviceId := svcId, count := 1 } },
              foundIp.ip, none)) := by
  refine ⟨?_, ?_⟩
  · intro foundContext hkey
    exact RegisterService_otherNetwork lower K dns svcId dnsNameToReg port ctx svcName foundIp
      foundContext hinit hhost hkey (fun h => hnet h.symm)
  · intro hkey
    exact RegisterService_newPort lower K dns svcId dnsNameToReg port ctx svcName foundIp hinit
      hhost hkey

/-- C7 as amended, at a concrete input: the state `oneService` and a call by `sessionN2` for
port 8443 of `api.internal`. -/
theorem C7_other_network_rejected_only_on_known_key_witness :
    (oneService.initDone = true
      ∧ mapLookup oneService.hostnameMap (normalizeDnsName asciiToLower "api.internal")
          = some { ctx := sessionN1, ip := [100, 64, 0, 3], network := "N1" }
      ∧ sessionN2.controller ≠ "N1")
    ∧ ((∀ foundContext, mapLookup oneService.serviceMap
          (serviceKey (normalizeDnsName asciiToLower "api.internal") 8443) = some foundContext →
        RegisterService asciiToLower sampleConstants oneService "svc2" "api.internal" 8443
            sessionN2 "admin" =
          some (oneService, [100, 64, 0, 3],
            some (.anotherIdentity "admin" "api.internal" 8443 sessionN2.controller "N1")))
      ∧ (mapLookup oneService.serviceMap
          (serviceKey (normalizeDnsName asciiToLower "api.internal") 8443) = none →
        RegisterService asciiToLower sampleConstants oneService "svc2" "api.internal" 8443
            sessionN2 "admin" =
          some ({ oneService with
                  serviceMap := mapInsert oneService.serviceMap
                    (serviceKey (normalizeDnsName asciiToLower "api.internal") 8443)
                    { ctx := sessionN2, name := "admin", serviceId := "svc2", count := 1 } },
                [100, 64, 0, 3], none))) :=
  ⟨by decide,
   C7_other_network_rejected_only_on_known_key asciiToLower sampleConstants oneService "svc2"
     "api.internal" 8443 sessionN2 "admin"
     { ctx := sessionN1, ip := [100, 64, 0, 3], network := "N1" }
     (by decide) (by decide) (by decide)⟩

/-- C8 (first allocated address) fails as stated. After `DnsInit("100.64.0.0", 24)` the first
call `RegisterService(svc1, api.internal, 443, N1, api)` returns 100.64.0.3, which is not
100.64.0.2: `atomic.AddUint32` hands back the counter after the increment. -/
theorem C8_first_address_is_not_offset_two :
    runFromInit asciiToLower sampleConstants [100, 64, 0, 0] 24
        [.register "svc1" "api.internal" 443 sessionN1 "api"]
      = some (oneService, [.registered [100, 64, 0, 3] none])
    ∧ runFromInit asciiToLower sampleConstants [100, 64, 0, 0] 24
        [.register "svc1" "api.internal" 443 sessionN1 "api"]
      ≠ some (oneService, [.registered [100, 64, 0, 2] none])
    ∧ (DnsInit DNS [100, 64, 0, 0] 24).map (fun dns => PutUint32 (dns.cidr ||| dns.ipCount))
      = some [100, 64, 0, 2] := by
  decide

/-- C8 as amended. On a directory freshly initialised by `DnsInit` the counter is 2 and the
first `RegisterService` call succeeds with the address `baseNetwork | 3`, the counter's
starting value plus one; the counter is 3 afterwards and the two maps hold the one entry of the
call. For the network 100.64.0.0 with prefix length 24 that address is 100.64.0.3. -/
theorem C8_first_address_is_offset_three (lower : Char → Char) (K : Constants) (i : IP)
    (maskBits : Int) (dns : dnsImpl) (svcId dnsNameToReg : String) (port : Nat)
    (ctx : CZitiCtx) (svcName : String) (hinit : DnsInit DNS i maskBits = some dns) :
    dns.ipCount = 2
    ∧ RegisterService lower K dns svcId dnsNameToReg port ctx svcName =
      some ({ dns with
              ipCount := 3
              hostnameMap := [(normalizeDnsName lower dnsNameToReg,
                { ip := PutUint32 (dns.cidr ||| 3), ctx := ctx, network := ctx.controller })]
              serviceMap := [(serviceKey (normalizeDnsName lower dnsNameToReg) port,
                { ctx := ctx, name := svcName, serviceId := svcId, count := 1 })] },
            PutUint32 (dns.cidr ||| 3), none) := by
  obtain ⟨h1, h2, h3, h4⟩ := DnsInit_fresh DNS dns i maskBits rfl hinit
  refine ⟨h2, ?_⟩
  have hhost : mapLookup dns.hostnameMap (normalizeDnsName lower dnsNameToReg) = none := by
    simp [h4, mapLookup]
  rw [RegisterService_newHost lower K dns svcId dnsNameToReg port ctx svcName h1 hhost]
  simp [h2, h3, h4, mapInsert]

/-- C8 as amended, at the input of the claim: network 100.64.0.0, prefix length 24, first call
`RegisterService(svc1, api.internal, 443, N1, api)`; the address is 100.64.0.3. -/
theorem C8_first_address_is_offset_three_witness :
    DnsInit DNS [100, 64, 0, 0] 24 = some initialised24
    ∧ PutUint32 (initialised24.cidr ||| 3) = [100, 64, 0, 3]
    ∧ (initialised24.ipCount = 2
      ∧ RegisterService asciiToLower sampleConstants initialised24 "svc1" "api.internal" 443
          sessionN1 "api" =
        some ({ initialised24 with
                ipCount := 3
                hostnameMap := [(normalizeDnsName asciiToLower "api.internal",
                  { ip := PutUint32 (initialised24.cidr ||| 3), ctx := sessionN1,
                    network := sessionN1.controller })]
                serviceMap := [(serviceKey (normalizeDnsName asciiToLower "api.internal") 443,
                  { ctx := sessionN1, name := "api", serviceId := "svc1", count := 1 })] },
              PutUint32 (initialised24.cidr ||| 3), none)) :=
  ⟨by decide, by decide,
   C8_first_address_is_offset_three asciiToLower sampleConstants [100, 64, 0, 0] 24
     initialised24 "svc1" "api.internal" 443 sessionN1 "api" (by decide)⟩

/-- C9 (allocated addresses stay inside the block), evaluated where the code breaks it. After
`DnsInit("10.0.0.0", 30)` the block is 10.0.0.0 to 10.0.0.3 and the offsets the claim allows
are those from 2 and below `2 ^ (32 - 30) - 1 = 3`. The first registration returns 10.0.0.3,
the broadcast address of the block (offset 3); the second returns 10.0.0.4, which is
`baseNetwork | 4` and is `baseNetwork | offset` for no allowed offset: its 30 leading bits are
not those of the base network. -/
theorem C9_address_outside_block :
    (DnsInit DNS [10, 0, 0, 0] 30).map (fun dns => dns.cidr) = some 167772160
    ∧ (runFromInit asciiToLower sampleConstants [10, 0, 0, 0] 30
        [.register "svc1" "a.internal" 443 sessionN1 "a",
         .register "svc2" "b.internal" 443 sessionN1 "b"]).map Prod.snd
      = some [.registered [10, 0, 0, 3] none, .registered [10, 0, 0, 4] none]
    ∧ PutUint32 (167772160 ||| (2 ^ (32 - 30) - 1)) = [10, 0, 0, 3]
    ∧ PutUint32 (167772160 ||| 4) = [10, 0, 0, 4]
    ∧ (∀ offset, offset < 2 ^ (32 - 30) - 1 → PutUint32 (167772160 ||| offset) ≠ [10, 0, 0, 4])
    ∧ (167772160 ||| 4) / 2 ^ (32 - 30) ≠ 167772160 / 2 ^ (32 - 30) := by
  decide

/-- C10 (new port on a known hostname). In every initialised state in which the normalized
hostname has a `hostnameMap` entry and the key of `hostname:port` has no `serviceMap` entry,
`RegisterService` succeeds and returns the address bound to the hostname; afterwards the key
holds the caller's session, service name and service identifier with reference count 1, the map
has exactly one entry more, every other key reads as before, and `ipCount`, `cidr` and
`hostnameMap` are unchanged. -/
theorem C10_new_port_on_known_hostname (lower : Char → Char) (K : Constants) (dns : dnsImpl)
    (svcId dnsNameToReg : String) (port : Nat) (ctx : CZitiCtx) (svcName : String)
    (foundIp : ctxIp) (hinit : dns.initDone = true)
    (hhost : mapLookup dns.hostnameMap (normalizeDnsName lower dnsNameToReg) = some foundIp)
    (hkey : mapLookup dns.serviceMap
      (serviceKey (normalizeDnsName lower dnsNameToReg) port) = none) :
    ∃ dns', RegisterService lower K dns svcId dnsNameToReg port ctx svcName
        = some (dns', foundIp.ip, none)
      ∧ mapLookup dns'.serviceMap (serviceKey (normalizeDnsName lower dnsNameToReg) port)
        = some { ctx := ctx, name := svcName, serviceId := svcId, count := 1 }
      ∧ dns'.serviceMap.length = dns.serviceMap.length + 1
      ∧ (∀ k, k ≠ serviceKey (normalizeDnsName lower dnsNameToReg) port →
          mapLookup dns'.serviceMap k = mapLookup dns.serviceMap k)
      ∧ dns'.ipCount = dns.ipCount ∧ dns'.cidr = dns.cidr
      ∧ dns'.hostnameMap = dns.hostnameMap ∧ dns'.initDone = dns.initDone := by
  refine ⟨_, RegisterService_newPort lower K dns svcId dnsNameToReg port ctx svcName foundIp
    hinit hhost hkey, ?_, ?_, ?_, rfl, rfl, rfl, rfl⟩
  · exact mapLookup_mapInsert_self _ _ _
  · exact length_mapInsert_of_absent _ _ _ hkey
  · intro k hk
    exact mapLookup_mapInsert_of_ne _ _ _ _ hk

/-- C10 at the input of the end-to-end scenario: in `oneService` the call
`RegisterService(svc1, api.internal, 8443, N1, api-admin)` returns 100.64.0.3 and adds a second
`serviceMap` entry. -/
theorem C10_new_port_on_known_hostname_witness :
    (oneService.initDone = true
      ∧ mapLookup oneService.hostnameMap (normalizeDnsName asciiToLower "api.internal")
          = some { ctx := sessionN1, ip := [100, 64, 0, 3], network := "N1" }
      ∧ mapLookup oneService.serviceMap
          (serviceKey (normalizeDnsName asciiToLower "api.internal") 8443) = none)
    ∧ ∃ dns', RegisterService asciiToLower sampleConstants oneService "svc1" "api.internal"
          8443 sessionN1 "api-admin" = some (dns', [100, 64, 0, 3], none)
      ∧ mapLookup dns'.serviceMap (serviceKey (normalizeDnsName asciiToLower "api.internal") 8443)
        = some { ctx := sessionN1, name := "api-admin", serviceId := "svc1", count := 1 }
      ∧ dns'.serviceMap.length = oneService.serviceMap.length + 1
      ∧ (∀ k, k ≠ serviceKey (normalizeDnsName asciiToLower "api.internal") 8443 →
          mapLookup dns'.serviceMap k = mapLookup oneService.serviceMap k)
      ∧ dns'.ipCount = oneService.ipCount ∧ dns'.cidr = oneService.cidr
      ∧ dns'.hostnameMap = oneService.hostnameMap ∧ dns'.initDone = oneService.initDone :=
  ⟨by decide,
   C10_new_port_on_known_hostname asciiToLower sampleConstants oneService "svc1" "api.internal"
     8443 sessionN1 "api-admin" { ctx := sessionN1, ip := [100, 64, 0, 3], network := "N1" }
     (by decide) (by decide) (by decide)⟩

/-! ## `GetService` and `DnsInit` -/

/-- C15 (GetService is the reverse lookup of RegisterService) fails as stated. After
`DnsInit("100.64.0.0", 24)` the call `RegisterService(svc1, api.internal, 443, sessionN1, api)`
succeeds with 100.64.0.3 and its entry is in `serviceMap`, yet `GetService(100.64.0.3, 443)`
returns the nil session and the empty name, not `sessionN1` and `api`. -/
theorem C15_GetService_does_not_find_registered_service :
    runFromInit asciiToLower sampleConstants [100, 64, 0, 0] 24
        [.register "svc1" "api.internal" 443 sessionN1 "api"]
      = some (oneService, [.registered [100, 64, 0, 3] none])
    ∧ mapLookup oneService.serviceMap (serviceKey (normalizeDnsName asciiToLower "api.internal") 443)
      = some { ctx := sessionN1, name := "api", serviceId := "svc1", count := 1 }
    ∧ GetService oneService [100, 64, 0, 3] 443 = (none, "", none)
    ∧ GetService oneService [100, 64, 0, 3] 443 ≠ (some sessionN1, "api", none) := by
  decide

/-- C15 as amended. `GetService` is not implemented yet: in every state, for every address and
port, it returns the nil session, the empty service name and no error, whatever has been
registered. -/
theorem C15_GetService_returns_nothing (dns : dnsImpl) (ip : IP) (port : Nat) :
    GetService dns ip port = (none, "", none) := by
  rfl

/-- The mask `net.CIDRMask(p, 32)` read as a 32-bit number has its `p` leading bits set. -/
theorem Uint32_CIDRMask (p : Nat) (hp : p ≤ 32) :
    Uint32 (CIDRMask (p : Int) 32) = some (2 ^ 32 - 2 ^ (32 - p)) := by
  have h : ∀ q : Fin 33, Uint32 (CIDRMask ((q : Nat) : Int) 32) = some (2 ^ 32 - 2 ^ (32 - (q : Nat))) := by
    decide
  exact h ⟨p, by omega⟩

/-- A call of `RegisterService` in an initialised state keeps `cidr` and `initDone`. -/
theorem RegisterService_cidr (lower : Char → Char) (K : Constants) (dns dns' : dnsImpl)
    (svcId dnsNameToReg : String) (port : Nat) (ctx : CZitiCtx) (svcName : String) (ip : IP)
    (err : Option RegisterError) (hinit : dns.initDone = true)
    (hres : RegisterService lower K dns svcId dnsNameToReg port ctx svcName
      = some (dns', ip, err)) :
    dns'.cidr = dns.cidr ∧ dns'.initDone = true := by
  cases hhost : mapLookup dns.hostnameMap (normalizeDnsName lower dnsNameToReg) with
  | none =>
    rw [RegisterService_newHost lower K dns svcId dnsNameToReg port ctx svcName hinit hhost]
      at hres
    cases hres
    exact ⟨rfl, hinit⟩
  | some foundIp =>
    cases hkey : mapLookup dns.serviceMap
        (serviceKey (normalizeDnsName lower dnsNameToReg) port) with
    | none =>
      rw [RegisterService_newPort lower K dns svcId dnsNameToReg port ctx svcName foundIp
        hinit hhost hkey] at hres
      cases hres
      exact ⟨rfl, hinit⟩
    | some foundContext =>
      by_cases hnet : foundIp.network = ctx.controller
      · by_cases hsvc : foundContext.serviceId = svcId
        · rw [RegisterService_again lower K dns svcId dnsNameToReg port ctx svcName foundIp
            foundContext hinit hhost hkey hnet hsvc] at hres
          cases hres
          exact ⟨rfl, hinit⟩
        · rw [RegisterService_otherService lower K dns svcId dnsNameToReg port ctx svcName
            foundIp foundContext hinit hhost hkey hnet hsvc] at hres
          cases hres
          exact ⟨rfl, hinit⟩
      · rw [RegisterService_otherNetwork lower K dns svcId dnsNameToReg port ctx svcName
          foundIp foundContext hinit hhost hkey hnet] at hres
        cases hres
        exact ⟨rfl, hinit⟩

/-- C16 (initialization is first-call-wins and idempotent). The first `DnsInit` with an IPv4
address of bytes `b0.b1.b2.b3` and a prefix length from 0 to 32 returns, sets `cidr` to the
address and-ed with the mask whose leading `maskBits` bits are set, sets `ipCount` to 2 and makes
both maps empty. In every initialised state every further `DnsInit`, whatever its arguments
(also those that would panic on a first call, and the call with the package constants that
opens `RegisterService`), gives the state back unchanged, and `RegisterService` as a whole
keeps `cidr`. -/
theorem C16_DnsInit_first_call_wins (b0 b1 b2 b3 : Nat) (maskBits : Int)
    (hlo : 0 ≤ maskBits) (hhi : maskBits ≤ 32) :
    (∃ a, Uint32 [b0, b1, b2, b3] = some a
      ∧ DnsInit DNS [b0, b1, b2, b3] maskBits =
        some { initDone := true, cidr := a &&& (2 ^ 32 - 2 ^ (32 - maskBits.toNat)),
               ipCount := 2, serviceMap := [], hostnameMap := [] })
    ∧ (∀ (dns : dnsImpl) (i : IP) (m : Int), dns.initDone = true → DnsInit dns i m = some dns)
    ∧ (∀ (lower : Char → Char) (K : Constants) (dns dns' : dnsImpl) (svcId dnsNameToReg : String)
        (port : Nat) (ctx : CZitiCtx) (svcName : String) (ip : IP) (err : Option RegisterError),
        dns.initDone = true →
        RegisterService lower K dns svcId dnsNameToReg port ctx svcName = some (dns', ip, err) →
        DnsInit dns K.Ipv4ip K.Ipv4DefaultMask = some dns ∧ dns'.cidr = dns.cidr
          ∧ dns'.initDone = true) := by
  refine ⟨?_, ?_, ?_⟩
  · obtain ⟨p, rfl⟩ := Int.eq_ofNat_of_zero_le hlo
    have hp : p ≤ 32 := by omega
    refine ⟨_, rfl, ?_⟩
    simp only [DnsInit, DNS, Uint32_CIDRMask p hp, Int.toNat_ofNat]
    simp [Uint32]
  · intro dns i m h
    exact DnsInit_of_initDone dns i m h
  · intro lower K dns dns' svcId dnsNameToReg port ctx svcName ip err hinit hres
    exact ⟨DnsInit_of_initDone dns _ _ hinit,
      RegisterService_cidr lower K dns dns' svcId dnsNameToReg port ctx svcName ip err hinit hres⟩

/-- C16 at a concrete input: `DnsInit("100.64.0.0", 24)` gives `initialised24`, and a later
`DnsInit("10.0.0.0", 8)` leaves it as it is. -/
theorem C16_DnsInit_first_call_wins_witness :
    ((0 : Int) ≤ 24 ∧ (24 : Int) ≤ 32)
    ∧ DnsInit DNS [100, 64, 0, 0] 24 = some initialised24
    ∧ DnsInit initialised24 [10, 0, 0, 0] 8 = some initialised24
    ∧ ((∃ a, Uint32 [100, 64, 0, 0] = some a
        ∧ DnsInit DNS [100, 64, 0, 0] 24 =
          some { initDone := true, cidr := a &&& (2 ^ 32 - 2 ^ (32 - (24 : Int).toNat)),
                 ipCount := 2, serviceMap := [], hostnameMap := [] })
      ∧ (∀ (dns : dnsImpl) (i : IP) (m : Int), dns.initDone = true → DnsInit dns i m = some dns)
      ∧ (∀ (lower : Char → Char) (K : Constants) (dns dns' : dnsImpl)
          (svcId dnsNameToReg : String) (port : Nat) (ctx : CZitiCtx) (svcName : String)
          (ip : IP) (err : Option RegisterError),
          dns.initDone = true →
          RegisterService lower K dns svcId dnsNameToReg port ctx svcName
            = some (dns', ip, err) →
          DnsInit dns K.Ipv4ip K.Ipv4DefaultMask = some dns ∧ dns'.cidr = dns.cidr
            ∧ dns'.initDone = true)) :=
  ⟨by decide, by decide, by decide,
   C16_DnsInit_first_call_wins 100 64 0 0 24 (by decide) (by decide)⟩

/-! ## The key of `serviceMap` -/

theorem toDigitsCore_value (fuel n : Nat) (ds : List Char) (a : Nat → Char → Nat)
    (ha : ∀ acc k, k < 10 → a acc (Nat.digitChar k) = acc * 10 + k) (hfuel : n < fuel) :
    (Nat.toDigitsCore 10 fuel n ds).foldl a 0 = ds.foldl a n := by
  induction fuel generalizing n ds with
  | zero => omega
  | succ fuel ih =>
    unfold Nat.toDigitsCore
    by_cases h : n / 10 = 0
    · simp only [h, if_true, List.foldl_cons]
      rw [ha 0 _ (Nat.mod_lt _ (by decide))]
      have : n % 10 = n := Nat.mod_eq_of_lt (by omega)
      simp [this]
    · simp only [h, if_false]
      rw [ih (n / 10) _ (by omega)]
      simp only [List.foldl_cons]
      rw [ha _ _ (Nat.mod_lt _ (by decide))]
      congr 1
      omega

theorem toDigitsCore_no_space (fuel n : Nat) (ds : List Char) (hds : ' ' ∉ ds) :
    ' ' ∉ Nat.toDigitsCore 10 fuel n ds := by
  have hd : ∀ k, k < 10 → Nat.digitChar k ≠ ' ' := by decide
  induction fuel generalizing n ds with
  | zero => simpa [Nat.toDigitsCore] using hds
  | succ fuel ih =>
    unfold Nat.toDigitsCore
    have hcons : ' ' ∉ Nat.digitChar (n % 10) :: ds := by
      simp only [List.mem_cons, not_or]
      exact ⟨fun h => hd _ (Nat.mod_lt _ (by decide)) h.symm, hds⟩
    by_cases h : n / 10 = 0
    · simpa only [h, if_true] using hcons
    · simp only [h, if_false]
      exact ih _ _ hcons

/-- The decimal text of a number determines the number. -/
theorem repr_injective (m n : Nat) (h : Nat.repr m = Nat.repr n) : m = n := by
  have hd : ∀ k, k < 10 → (Nat.digitChar k).toNat - 48 = k := by decide
  have value : ∀ k : Nat,
      (Nat.repr k).data.foldl (fun acc c => acc * 10 + (c.toNat - 48)) 0 = k := by
    intro k
    show (Nat.toDigitsCore 10 (k + 1) k []).foldl _ 0 = k
    rw [toDigitsCore_value (k + 1) k [] _ (fun acc j hj => by rw [hd j hj]) (by omega)]
    rfl
  rw [← value m, ← value n, h]

/-- The decimal text of a number holds no space. -/
theorem repr_no_space (n : Nat) : ' ' ∉ (Nat.repr n).data :=
  toDigitsCore_no_space (n + 1) n [] (by simp)

theorem append_sep_inj {α : Type} (a : α) (l1 l2 r1 r2 : List α) (h1 : a ∉ r1) (h2 : a ∉ r2)
    (h : l1 ++ a :: r1 = l2 ++ a :: r2) : l1 = l2 ∧ r1 = r2 := by
  rcases List.append_eq_append_iff.mp h with ⟨m, hm1, hm2⟩ | ⟨m, hm1, hm2⟩
  · cases m with
    | nil => simp at hm1 hm2; exact ⟨hm1.symm, hm2⟩
    | cons x m =>
      simp only [List.cons_append, List.cons.injEq] at hm2
      exact absurd (by rw [hm2.2]; simp) h1
  · cases m with
    | nil => simp at hm1 hm2; exact ⟨hm1, hm2.symm⟩
    | cons x m =>
      simp only [List.cons_append, List.cons.injEq] at hm2
      exact absurd (by rw [hm2.2]; simp) h2

/-- The runes of a key: the name, `5`, `8`, a space, the decimal port. -/
theorem serviceKey_data (dnsName : String) (port : Nat) :
    (serviceKey dnsName port).data = (dnsName.data ++ ['5', '8']) ++ ' ' :: (Nat.repr port).data := by
  have h58 : Nat.repr 58 = "58" := by decide
  simp [serviceKey, h58, String.data_append]

/-- Two keys are equal only for the same name and the same port. -/
theorem serviceKey_inj (h1 h2 : String) (p1 p2 : Nat)
    (hkey : serviceKey h1 p1 = serviceKey h2 p2) : h1 = h2 ∧ p1 = p2 := by
  have hdata := congrArg String.data hkey
  rw [serviceKey_data, serviceKey_data] at hdata
  obtain ⟨hl, hr⟩ := append_sep_inj ' ' _ _ _ _ (repr_no_space p1) (repr_no_space p2) hdata
  exact ⟨String.ext (List.append_cancel_right hl), repr_injective p1 p2 (String.ext hr)⟩

/-- C19 (the ServiceRegistry key is injective). The key `fmt.Sprint(dnsName, ':', port)` is the
hostname followed by `58`, a space and the decimal port, and for all hostnames `h1`, `h2` (in
particular all outputs of `normalizeDnsName`) and all ports `p1`, `p2` (in particular those of a
`uint16`) the keys of `(h1, p1)` and `(h2, p2)` are equal exactly when `h1 = h2` and `p1 = p2`;
hence two different hostname:port pairs never read or write the same `serviceMap` entry. -/
theorem C19_serviceKey_injective (lower : Char → Char) (h1 h2 : String) (p1 p2 : Nat) :
    (serviceKey h1 p1 = h1 ++ "58" ++ " " ++ Nat.repr p1)
    ∧ (serviceKey h1 p1 = serviceKey h2 p2 ↔ h1 = h2 ∧ p1 = p2)
    ∧ (serviceKey (normalizeDnsName lower h1) p1 = serviceKey (normalizeDnsName lower h2) p2 ↔
        normalizeDnsName lower h1 = normalizeDnsName lower h2 ∧ p1 = p2)
    ∧ ((normalizeDnsName lower h1, p1) ≠ (normalizeDnsName lower h2, p2) →
        ∀ (m : List (String × ctxService)) (v : ctxService),
          mapLookup (mapInsert m (serviceKey (normalizeDnsName lower h1) p1) v)
              (serviceKey (normalizeDnsName lower h2) p2)
            = mapLookup m (serviceKey (normalizeDnsName lower h2) p2)) := by
  have h58 : Nat.repr 58 = "58" := by decide
  refine ⟨by simp [serviceKey, h58], ?_, ?_, ?_⟩
  · constructor
    · exact serviceKey_inj h1 h2 p1 p2
    · rintro ⟨rfl, rfl⟩
      rfl
  · constructor
    · exact serviceKey_inj _ _ p1 p2
    · rintro ⟨h, rfl⟩
      rw [h]
  · intro hne m v
    apply mapLookup_mapInsert_of_ne
    intro hk
    obtain ⟨ha, hb⟩ := serviceKey_inj _ _ _ _ hk
    exact hne (by rw [ha, hb])

/-! ## Normalization -/

theorem dropWhile_of_head {α : Type} (p : α → Bool) (l : List α)
    (h : ∀ c, l.head? = some c → p c = false) : l.dropWhile p = l := by
  cases l with
  | nil => rfl
  | cons a t =>
    have := h a rfl
    simp [List.dropWhile, this]

theorem head_dropWhile {α : Type} (p : α → Bool) (l : List α) (c : α)
    (h : (l.dropWhile p).head? = some c) : p c = false := by
  induction l with
  | nil => simp at h
  | cons a t ih =>
    by_cases ha : p a = true
    · simp only [List.dropWhile, ha] at h
      exact ih h
    · simp only [Bool.not_eq_true] at ha
      simp only [List.dropWhile, ha, List.head?_cons, Option.some.injEq] at h
      rw [← h]
      exact ha

theorem getLast_dropWhile {α : Type} (p : α → Bool) (l : List α) (c : α)
    (h : (l.dropWhile p).getLast? = some c) : l.getLast? = some c := by
  induction l with
  | nil => simp at h
  | cons a t ih =>
    by_cases ha : p a = true
    · simp only [List.dropWhile, ha] at h
      have ht := ih h
      cases t with
      | nil => simp at ht
      | cons b t' => simpa [List.getLast?_cons_cons] using ht
    · simp only [Bool.not_eq_true] at ha
      simpa only [List.dropWhile, ha] using h

theorem dropWhile_append_singleton {α : Type} (p : α → Bool) (l : List α) (z : α)
    (hz : p z = false) : (l ++ [z]).dropWhile p = l.dropWhile p ++ [z] := by
  induction l with
  | nil => simp [List.dropWhile, hz]
  | cons a t ih =>
    by_cases ha : p a = true
    · simp [List.dropWhile, ha, ih]
    · simp only [Bool.not_eq_true] at ha
      simp [List.dropWhile, ha]

theorem dropWhile_all {α : Type} (p : α → Bool) (l : List α) (h : ∀ c ∈ l, p c = true) :
    l.dropWhile p = [] := by
  induction l with
  | nil => rfl
  | cons a t ih =>
    have ha := h a (by simp)
    simp only [List.dropWhile, ha]
    exact ih (fun c hc => h c (by simp [hc]))

theorem map_dropWhile {α β : Type} (p : α → Bool) (q : β → Bool) (f : α → β)
    (hf : ∀ c, q (f c) = p c) (l : List α) :
    (l.dropWhile p).map f = (l.map f).dropWhile q := by
  induction l with
  | nil => rfl
  | cons a t ih =>
    by_cases ha : p a = true
    · have hq : q (f a) = true := by rw [hf, ha]
      simp [List.dropWhile, ha, hq, ih]
    · simp only [Bool.not_eq_true] at ha
      have hq : q (f a) = false := by rw [hf, ha]
      simp [List.dropWhile, ha, hq]

/-- The first rune of a trimmed string is no white space. -/
theorem TrimSpace_head (s : String) (c : Char) (h : (TrimSpace s).data.head? = some c) :
    IsSpace c = false := by
  unfold TrimSpace at h
  rw [List.head?_reverse] at h
  have h1 := getLast_dropWhile IsSpace _ c h
  rw [List.getLast?_reverse] at h1
  exact head_dropWhile IsSpace s.data c h1

/-- The last rune of a trimmed string is no white space. -/
theorem TrimSpace_last (s : String) (c : Char) (h : (TrimSpace s).data.getLast? = some c) :
    IsSpace c = false := by
  unfold TrimSpace at h
  rw [List.getLast?_reverse] at h
  exact head_dropWhile IsSpace _ c h

/-- A string that neither starts nor ends with white space is its own trimmed form. -/
theorem TrimSpace_of_trimmed (s : String) (hh : ∀ c, s.data.head? = some c → IsSpace c = false)
    (hl : ∀ c, s.data.getLast? = some c → IsSpace c = false) : TrimSpace s = s := by
  apply String.ext
  show ((s.data.dropWhile IsSpace).reverse.dropWhile IsSpace).reverse = s.data
  rw [dropWhile_of_head IsSpace s.data hh, dropWhile_of_head IsSpace s.data.reverse,
    List.reverse_reverse]
  intro c hc
  rw [List.head?_reverse] at hc
  exact hl c hc

/-- The runes of a normalized name. -/
theorem normalizeDnsName_data (lower : Char → Char) (x : String) :
    (normalizeDnsName lower x).data =
      (if (TrimSpace x).data.getLast? = some '.' then (TrimSpace x).data
       else (TrimSpace x).data ++ ['.']).map lower := by
  unfold normalizeDnsName ToLower HasSuffixDot
  by_cases h : (TrimSpace x).data.getLast? = some '.'
  · simp [h]
  · simp [h, String.data_append]

/-- A normalized name ends in the lower-cased period and starts with a lower-cased rune that
was no white space. -/
theorem normalizeDnsName_shape (lower : Char → Char) (x : String) :
    ∃ t : List Char, (normalizeDnsName lower x).data = t.map lower
      ∧ t.getLast? = some '.' ∧ (∀ c, t.head? = some c → IsSpace c = false) := by
  rw [normalizeDnsName_data]
  by_cases h : (TrimSpace x).data.getLast? = some '.'
  · exact ⟨_, by simp [h], h, TrimSpace_head x⟩
  · refine ⟨(TrimSpace x).data ++ ['.'], by simp [h], by simp, ?_⟩
    intro c hc
    cases ht : (TrimSpace x).data with
    | nil =>
      rw [ht] at hc
      simp only [List.nil_append, List.head?_cons, Option.some.injEq] at hc
      rw [← hc]
      decide
    | cons a t =>
      rw [ht] at hc
      simp only [List.cons_append, List.head?_cons, Option.some.injEq] at hc
      exact TrimSpace_head x c (by rw [ht, ← hc]; rfl)

/-- C12 (normalization is idempotent). For every rune map `lower` with the properties of
`unicode.ToLower` used here (lower-casing twice is lower-casing once, the period stays a period,
a rune that is no white space is not turned into white space) and for every string `x`,
the empty and the all-white-space strings and those ending in a period included,
`normalizeDnsName(normalizeDnsName(x)) = normalizeDnsName(x)`. -/
theorem C12_normalizeDnsName_idempotent (lower : Char → Char)
    (hidem : ∀ c, lower (lower c) = lower c) (hdot : lower '.' = '.')
    (hspace : ∀ c, IsSpace c = false → IsSpace (lower c) = false) (x : String) :
    normalizeDnsName lower (normalizeDnsName lower x) = normalizeDnsName lower x := by
  obtain ⟨t, ht, hlast, hhead⟩ := normalizeDnsName_shape lower x
  have hlast' : (normalizeDnsName lower x).data.getLast? = some '.' := by
    rw [ht, List.getLast?_map, hlast]
    simp [hdot]
  have htrim : TrimSpace (normalizeDnsName lower x) = normalizeDnsName lower x := by
    apply TrimSpace_of_trimmed
    · intro c hc
      rw [ht, List.head?_map] at hc
      cases hth : t.head? with
      | none => simp [hth] at hc
      | some a =>
        simp only [hth, Option.map_some', Option.some.injEq] at hc
        rw [← hc]
        exact hspace a (hhead a hth)
    · intro c hc
      rw [hlast'] at hc
      simp only [Option.some.injEq] at hc
      rw [← hc]
      decide
  apply String.ext
  rw [normalizeDnsName_data lower (normalizeDnsName lower x), htrim, if_pos hlast', ht,
    List.map_map]
  apply List.map_congr_left
  intro c _
  exact hidem c

/-- A property that holds for the runes `A`..`Z` holds for every rune `asciiToLower` moves. -/
theorem asciiToLower_upper (P : Char → Prop)
    (hupper : ∀ n, n < 91 → 65 ≤ n → P (Char.ofNat n)) (c : Char)
    (h : 'A'.toNat ≤ c.toNat ∧ c.toNat ≤ 'Z'.toNat) : P c := by
  have h65 : 65 ≤ c.toNat := h.1
  have h90 : c.toNat ≤ 90 := h.2
  have := hupper c.toNat (by omega) h65
  rwa [Char.ofNat_toNat] at this

theorem asciiToLower_idem (c : Char) : asciiToLower (asciiToLower c) = asciiToLower c := by
  by_cases h : 'A'.toNat ≤ c.toNat ∧ c.toNat ≤ 'Z'.toNat
  · exact asciiToLower_upper (fun c => asciiToLower (asciiToLower c) = asciiToLower c)
      (by decide) c h
  · have : asciiToLower c = c := by simp only [asciiToLower, h, if_false]
    rw [this, this]

theorem asciiToLower_space (c : Char) : IsSpace (asciiToLower c) = IsSpace c := by
  by_cases h : 'A'.toNat ≤ c.toNat ∧ c.toNat ≤ 'Z'.toNat
  · exact asciiToLower_upper (fun c => IsSpace (asciiToLower c) = IsSpace c) (by decide) c h
  · have : asciiToLower c = c := by simp only [asciiToLower, h, if_false]
    rw [this]

theorem asciiToLower_eq_dot (c : Char) (hc : asciiToLower c = '.') : c = '.' := by
  by_cases h : 'A'.toNat ≤ c.toNat ∧ c.toNat ≤ 'Z'.toNat
  · exact asciiToLower_upper (fun c => asciiToLower c = '.' → c = '.') (by decide) c h hc
  · have : asciiToLower c = c := by simp only [asciiToLower, h, if_false]
    rw [← this]
    exact hc

/-- C12 at concrete inputs, with the ASCII lower-casing: ` Example.com `, the empty string, a
string of white space and a string that ends in a period. -/
theorem C12_normalizeDnsName_idempotent_witness :
    ((∀ c, asciiToLower (asciiToLower c) = asciiToLower c) ∧ asciiToLower '.' = '.'
      ∧ (∀ c, IsSpace c = false → IsSpace (asciiToLower c) = false))
    ∧ normalizeDnsName asciiToLower " Example.com " = "example.com."
    ∧ normalizeDnsName asciiToLower "" = "."
    ∧ normalizeDnsName asciiToLower " \t " = "."
    ∧ normalizeDnsName asciiToLower "Example.COM." = "example.com."
    ∧ normalizeDnsName asciiToLower (normalizeDnsName asciiToLower " Example.com ")
      = normalizeDnsName asciiToLower " Example.com " :=
  ⟨⟨asciiToLower_idem, by decide, fun c hc => by rw [asciiToLower_space, hc]⟩,
   by decide, by decide, by decide, by decide,
   C12_normalizeDnsName_idempotent asciiToLower asciiToLower_idem (by decide)
     (fun c hc => by rw [asciiToLower_space, hc]) " Example.com "⟩

/-- Lower-casing commutes with trimming when it keeps white space and only white space. -/
theorem TrimSpace_map (lower : Char → Char) (hspace : ∀ c, IsSpace (lower c) = IsSpace c)
    (x : String) :
    (TrimSpace x).data.map lower = (TrimSpace (ToLower lower x)).data := by
  show (((x.data.dropWhile IsSpace).reverse.dropWhile IsSpace).reverse).map lower
    = (((x.data.map lower).dropWhile IsSpace).reverse.dropWhile IsSpace).reverse
  rw [List.map_reverse, map_dropWhile IsSpace IsSpace lower hspace, List.map_reverse,
    map_dropWhile IsSpace IsSpace lower hspace]

/-- C13 (normalization is case-insensitive). For every rune map `lower` with the properties of
`unicode.ToLower` used here (the period is the one rune lower-cased to a period, white space
stays white space and nothing else becomes white space) and for all strings `x`, `y` whose
lower-casings are equal, `normalizeDnsName(x) = normalizeDnsName(y)`; hence `Resolve` answers
the same for both, the `serviceMap` key is the same for both at every port, and
`RegisterService` reaches the same state and returns the same address for both, failing for
both or for neither. -/
theorem C13_normalizeDnsName_case_insensitive (lower : Char → Char)
    (hdot : lower '.' = '.') (honly : ∀ c, lower c = '.' → c = '.')
    (hspace : ∀ c, IsSpace (lower c) = IsSpace c) (x y : String)
    (hxy : ToLower lower x = ToLower lower y) :
    normalizeDnsName lower x = normalizeDnsName lower y
    ∧ (∀ dns, Resolve lower dns x = Resolve lower dns y)
    ∧ (∀ port, serviceKey (normalizeDnsName lower x) port
        = serviceKey (normalizeDnsName lower y) port)
    ∧ (∀ K dns svcId port ctx svcName,
        (RegisterService lower K dns svcId x port ctx svcName).map
            (fun r => (r.1, r.2.1, r.2.2.isSome))
          = (RegisterService lower K dns svcId y port ctx svcName).map
            (fun r => (r.1, r.2.1, r.2.2.isSome))) := by
  have htrim : (TrimSpace x).data.map lower = (TrimSpace y).data.map lower := by
    rw [TrimSpace_map lower hspace, TrimSpace_map lower hspace, hxy]
  have hsuffix : ∀ l : List Char, l.getLast? = some '.' ↔ (l.map lower).getLast? = some '.' := by
    intro l
    rw [List.getLast?_map]
    cases l.getLast? with
    | none => simp
    | some c =>
      simp only [Option.map_some', Option.some.injEq]
      constructor
      · intro h
        rw [h, hdot]
      · exact honly c
  have hnorm : normalizeDnsName lower x = normalizeDnsName lower y := by
    apply String.ext
    rw [normalizeDnsName_data, normalizeDnsName_data]
    by_cases hx : (TrimSpace x).data.getLast? = some '.'
    · have hy : (TrimSpace y).data.getLast? = some '.' := by
        rw [hsuffix, ← htrim, ← hsuffix]
        exact hx
      rw [if_pos hx, if_pos hy, htrim]
    · have hy : ¬ (TrimSpace y).data.getLast? = some '.' := by
        rw [hsuffix, ← htrim, ← hsuffix]
        exact hx
      rw [if_neg hx, if_neg hy, List.map_append, List.map_append, htrim]
  refine ⟨hnorm, ?_, ?_, ?_⟩
  · intro dns
    simp only [Resolve, hnorm]
  · intro port
    rw [hnorm]
  · intro K dns svcId port ctx svcName
    simp only [RegisterService, hnorm]
    cases DnsInit dns K.Ipv4ip K.Ipv4DefaultMask with
    | none => rfl
    | some s =>
      simp only []
      cases mapLookup s.hostnameMap (normalizeDnsName lower y) with
      | none => rfl
      | some foundIp =>
        simp only []
        cases mapLookup s.serviceMap (serviceKey (normalizeDnsName lower y) port) with
        | none => rfl
        | some foundContext =>
          simp only []
          by_cases hnet : foundIp.network = ctx.controller
          · by_cases hsvc : foundContext.serviceId = svcId
            · simp [hnet, hsvc]
            · simp [hnet, hsvc]
          · simp [hnet]

/-- C13 at the input of the claim: `Example.com` and `example.com` both give `example.com.`. -/
theorem C13_normalizeDnsName_case_insensitive_witness :
    (asciiToLower '.' = '.' ∧ (∀ c, asciiToLower c = '.' → c = '.')
      ∧ (∀ c, IsSpace (asciiToLower c) = IsSpace c)
      ∧ ToLower asciiToLower "Example.com" = ToLower asciiToLower "example.com")
    ∧ normalizeDnsName asciiToLower "Example.com" = "example.com."
    ∧ normalizeDnsName asciiToLower "example.com" = "example.com."
    ∧ (normalizeDnsName asciiToLower "Example.com" = normalizeDnsName asciiToLower "example.com"
      ∧ (∀ dns, Resolve asciiToLower dns "Example.com" = Resolve asciiToLower dns "example.com")
      ∧ (∀ port, serviceKey (normalizeDnsName asciiToLower "Example.com") port
          = serviceKey (normalizeDnsName asciiToLower "example.com") port)
      ∧ (∀ K dns svcId port ctx svcName,
          (RegisterService asciiToLower K dns svcId "Example.com" port ctx svcName).map
              (fun r => (r.1, r.2.1, r.2.2.isSome))
            = (RegisterService asciiToLower K dns svcId "example.com" port ctx svcName).map
              (fun r => (r.1, r.2.1, r.2.2.isSome)))) :=
  ⟨⟨by decide, asciiToLower_eq_dot, asciiToLower_space, by decide⟩, by decide, by decide,
   C13_normalizeDnsName_case_insensitive asciiToLower (by decide) asciiToLower_eq_dot
     asciiToLower_space "Example.com" "example.com" (by decide)⟩

/-- C14 (normalization ignores a trailing separator) fails as stated. The hostname
`example.com ` ends in a space, not in a period; with the period appended the trimmed text is
`example.com .`, which already ends in a period, so the normalized form keeps the inner space
and differs from the normalized form `example.com.` of the hostname itself. -/
theorem C14_trailing_space_then_separator :
    "example.com ".data.getLast? ≠ some '.'
    ∧ normalizeDnsName asciiToLower ("example.com " ++ ".") = "example.com ."
    ∧ normalizeDnsName asciiToLower "example.com " = "example.com."
    ∧ normalizeDnsName asciiToLower ("example.com " ++ ".")
      ≠ normalizeDnsName asciiToLower "example.com " := by
  decide

/-- C14 as amended. For every hostname `x` that consists of white space only (the empty string
included) or whose last rune is neither a period nor white space, whatever white space it
starts with, `normalizeDnsName(x + ".") = normalizeDnsName(x)`, for every rune map. -/
theorem C14_trailing_separator_ignored (lower : Char → Char) (x : String)
    (hx : (∀ c ∈ x.data, IsSpace c = true)
      ∨ (∀ c, x.data.getLast? = some c → c ≠ '.' ∧ IsSpace c = false)) :
    normalizeDnsName lower (x ++ ".") = normalizeDnsName lower x := by
  have hdotspace : IsSpace '.' = false := by decide
  have hA : (TrimSpace (x ++ ".")).data = x.data.dropWhile IsSpace ++ ['.'] := by
    show (((x ++ ".").data.dropWhile IsSpace).reverse.dropWhile IsSpace).reverse = _
    have hd : (x ++ ".").data = x.data ++ ['.'] := by rw [String.data_append]
    rw [hd, dropWhile_append_singleton IsSpace _ _ hdotspace, List.reverse_append]
    simp only [List.reverse_cons, List.reverse_nil, List.nil_append, List.singleton_append]
    rw [dropWhile_of_head IsSpace _ (by
      intro c hc
      simp only [List.head?_cons, Option.some.injEq] at hc
      rw [← hc]
      exact hdotspace)]
    simp
  have hB : (TrimSpace x).data = x.data.dropWhile IsSpace
      ∧ (x.data.dropWhile IsSpace).getLast? ≠ some '.' := by
    rcases hx with hall | hlast
    · have hnil : x.data.dropWhile IsSpace = [] := dropWhile_all IsSpace _ hall
      refine ⟨?_, by rw [hnil]; simp⟩
      show ((x.data.dropWhile IsSpace).reverse.dropWhile IsSpace).reverse = _
      rw [hnil]
      rfl
    · refine ⟨?_, ?_⟩
      · show ((x.data.dropWhile IsSpace).reverse.dropWhile IsSpace).reverse = _
        rw [dropWhile_of_head IsSpace (x.data.dropWhile IsSpace).reverse, List.reverse_reverse]
        intro c hc
        rw [List.head?_reverse] at hc
        exact (hlast c (getLast_dropWhile IsSpace _ c hc)).2
      · intro hdot
        exact (hlast '.' (getLast_dropWhile IsSpace _ '.' hdot)).1 rfl
  apply String.ext
  rw [normalizeDnsName_data, normalizeDnsName_data, hA, hB.1, if_neg hB.2,
    if_pos (by simp)]

/-- C14 as amended, at concrete inputs: ` example.com` with a leading space; the strings of the
claim, `example.com`, `example.com.` and ` example.com `, all normalize to `example.com.`. -/
theorem C14_trailing_separator_ignored_witness :
    ((∀ c ∈ " example.com".data, IsSpace c = true)
      ∨ (∀ c, " example.com".data.getLast? = some c → c ≠ '.' ∧ IsSpace c = false))
    ∧ normalizeDnsName asciiToLower "example.com" = "example.com."
    ∧ normalizeDnsName asciiToLower "example.com." = "example.com."
    ∧ normalizeDnsName asciiToLower " example.com " = "example.com."
    ∧ normalizeDnsName asciiToLower (" example.com" ++ ".")
      = normalizeDnsName asciiToLower " example.com" :=
  have hlast : ∀ c, " example.com".data.getLast? = some c → c ≠ '.' ∧ IsSpace c = false := by
    intro c hc
    have hm : " example.com".data.getLast? = some 'm' := by decide
    rw [hm] at hc
    cases hc
    decide
  ⟨Or.inr hlast, by decide, by decide, by decide,
   C14_trailing_separator_ignored asciiToLower " example.com" (Or.inr hlast)⟩

/-! ## Sequences of calls: invariants -/

/-- The three ways a call of `RegisterService` ends in an initialised state: a new hostname, a
new port of a known hostname, a known key (with or without error, the state stays). -/
theorem RegisterService_cases (lower : Char → Char) (K : Constants) (dns : dnsImpl)
    (svcId dnsNameToReg : String) (port : Nat) (ctx : CZitiCtx) (svcName : String)
    (hinit : dns.initDone = true) :
    (mapLookup dns.hostnameMap (normalizeDnsName lower dnsNameToReg) = none
      ∧ RegisterService lower K dns svcId dnsNameToReg port ctx svcName =
        some ({ dns with
                ipCount := (dns.ipCount + 1) % 2 ^ 32
                hostnameMap := mapInsert dns.hostnameMap (normalizeDnsName lower dnsNameToReg)
                  { ip := PutUint32 (dns.cidr ||| (dns.ipCount + 1) % 2 ^ 32), ctx := ctx,
                    network := ctx.controller }
                serviceMap := mapInsert dns.serviceMap
                  (serviceKey (normalizeDnsName lower dnsNameToReg) port)
                  { ctx := ctx, name := svcName, serviceId := svcId, count := 1 } },
              PutUint32 (dns.cidr ||| (dns.ipCount + 1) % 2 ^ 32), none))
    ∨ (∃ foundIp, mapLookup dns.hostnameMap (normalizeDnsName lower dnsNameToReg) = some foundIp
      ∧ RegisterService lower K dns svcId dnsNameToReg port ctx svcName =
        some ({ dns with
                serviceMap := mapInsert dns.serviceMap
                  (serviceKey (normalizeDnsName lower dnsNameToReg) port)
                  { ctx := ctx, name := svcName, serviceId := svcId, count := 1 } },
              foundIp.ip, none))
    ∨ (∃ foundIp err,
        mapLookup dns.hostnameMap (normalizeDnsName lower dnsNameToReg) = some foundIp
      ∧ RegisterService lower K dns svcId dnsNameToReg port ctx svcName =
        some (dns, foundIp.ip, err)) := by
  cases hhost : mapLookup dns.hostnameMap (normalizeDnsName lower dnsNameToReg) with
  | none =>
    exact Or.inl ⟨rfl, RegisterService_newHost lower K dns svcId dnsNameToReg port ctx svcName
      hinit hhost⟩
  | some foundIp =>
    cases hkey : mapLookup dns.serviceMap
        (serviceKey (normalizeDnsName lower dnsNameToReg) port) with
    | none =>
      exact Or.inr (Or.inl ⟨foundIp, rfl, RegisterService_newPort lower K dns svcId
        dnsNameToReg port ctx svcName foundIp hinit hhost hkey⟩)
    | some foundContext =>
      refine Or.inr (Or.inr ⟨foundIp, ?_⟩)
      by_cases hnet : foundIp.network = ctx.controller
      · by_cases hsvc : foundContext.serviceId = svcId
        · exact ⟨_, rfl, RegisterService_again lower K dns svcId dnsNameToReg port ctx svcName
            foundIp foundContext hinit hhost hkey hnet hsvc⟩
        · exact ⟨_, rfl, RegisterService_otherService lower K dns svcId dnsNameToReg port ctx
            svcName foundIp foundContext hinit hhost hkey hnet hsvc⟩
      · exact ⟨_, rfl, RegisterService_otherNetwork lower K dns svcId dnsNameToReg port ctx
          svcName foundIp foundContext hinit hhost hkey hnet⟩

/-- A call of `DeregisterService` leaves the state as it is or deletes one key of `serviceMap`;
when it deletes, the key was visited and its entry has the context pointer and the name. -/
theorem DeregisterService_cases (dns : dnsImpl) (visit : List String) (ctx : CZitiCtx)
    (name : String) :
    DeregisterService dns visit ctx name = dns
    ∨ ∃ k sc, k ∈ visit ∧ mapLookup dns.serviceMap k = some sc ∧ sc.ctx.addr = ctx.addr
        ∧ sc.name = name
        ∧ DeregisterService dns visit ctx name
          = { dns with serviceMap := mapDelete dns.serviceMap k } := by
  induction visit with
  | nil => exact Or.inl rfl
  | cons k rest ih =>
    unfold DeregisterService
    cases hk : mapLookup dns.serviceMap k with
    | none =>
      simp only []
      rcases ih with h | ⟨k', sc, hmem, h⟩
      · exact Or.inl h
      · exact Or.inr ⟨k', sc, List.mem_cons_of_mem _ hmem, h⟩
    | some sc =>
      simp only []
      by_cases hm : sc.ctx.addr = ctx.addr ∧ sc.name = name
      · rw [if_pos hm]
        by_cases hc : sc.count - 1 < (1 : Int)
        · rw [if_pos hc]
          exact Or.inr ⟨k, sc, List.mem_cons_self _ _, hk, hm.1, hm.2, rfl⟩
        · rw [if_neg hc]
          exact Or.inl rfl
      · rw [if_neg hm]
        rcases ih with h | ⟨k', sc', hmem, h⟩
        · exact Or.inl h
        · exact Or.inr ⟨k', sc', List.mem_cons_of_mem _ hmem, h⟩

theorem step_register (lower : Char → Char) (K : Constants) (dns dns' : dnsImpl)
    (svcId dnsNameToReg : String) (port : Nat) (ctx : CZitiCtx) (svcName : String) (ip : IP)
    (err : Option RegisterError)
    (h : RegisterService lower K dns svcId dnsNameToReg port ctx svcName = some (dns', ip, err)) :
    step lower K dns (.register svcId dnsNameToReg port ctx svcName)
      = some (dns', .registered ip err) := by
  simp only [step, h]

/-- A step from an initialised state returns and ends in an initialised state. -/
theorem step_initDone (lower : Char → Char) (K : Constants) (dns : dnsImpl) (c : Call)
    (hinit : dns.initDone = true) :
    ∃ dns' o, step lower K dns c = some (dns', o) ∧ dns'.initDone = true := by
  cases c with
  | register svcId dnsNameToReg port ctx svcName =>
    rcases RegisterService_cases lower K dns svcId dnsNameToReg port ctx svcName hinit with
      ⟨_, h⟩ | ⟨_, _, h⟩ | ⟨_, _, _, h⟩ <;>
    exact ⟨_, _, step_register _ _ _ _ _ _ _ _ _ _ _ h, hinit⟩
  | deregister visit ctx name =>
    refine ⟨_, _, rfl, ?_⟩
    rcases DeregisterService_cases dns visit ctx name with h | ⟨_, _, _, _, _, _, h⟩ <;>
    rw [h] <;> exact hinit
  | resolve toResolve => exact ⟨_, _, rfl, hinit⟩

/-- A property of the state and of the calls made so far, with their outcomes, that every
step keeps is kept by a sequence of calls; the sequence returns one outcome per call. -/
theorem run_invariant (lower : Char → Char) (K : Constants)
    (Inv : dnsImpl → List (Call × Outcome) → Prop)
    (hstep : ∀ dns past c dns' o, dns.initDone = true → Inv dns past →
      step lower K dns c = some (dns', o) → Inv dns' (past ++ [(c, o)]))
    (calls : List Call) :
    ∀ (dns : dnsImpl) (past : List (Call × Outcome)), dns.initDone = true → Inv dns past →
      ∃ dns' outs, run lower K dns calls = some (dns', outs) ∧ dns'.initDone = true
        ∧ outs.length = calls.length ∧ Inv dns' (past ++ calls.zip outs) := by
  induction calls with
  | nil =>
    intro dns past hinit hinv
    exact ⟨dns, [], rfl, hinit, rfl, by simpa using hinv⟩
  | cons c cs ih =>
    intro dns past hinit hinv
    obtain ⟨dns1, o, hs, hinit1⟩ := step_initDone lower K dns c hinit
    obtain ⟨dns2, outs, hr, hinit2, hlen, hinv2⟩ :=
      ih dns1 (past ++ [(c, o)]) hinit1 (hstep dns past c dns1 o hinit hinv hs)
    refine ⟨dns2, o :: outs, by simp only [run, hs, hr], hinit2, by simp [hlen], ?_⟩
    simpa using hinv2

/-- Every step keeps the link between `hostnameMap` and the successful registrations made so
far: each entry carries the address some successful registration of its hostname returned, and
each successful registration finds its address in the entry of its hostname. -/
theorem step_hostnameMap (lower : Char → Char) (K : Constants) (dns : dnsImpl)
    (past : List (Call × Outcome)) (c : Call) (dns' : dnsImpl) (o : Outcome)
    (hinit : dns.initDone = true)
    (hinv : (∀ h e, mapLookup dns.hostnameMap h = some e →
        ∃ svcId x p ctx n, (Call.register svcId x p ctx n, Outcome.registered e.ip none) ∈ past
          ∧ normalizeDnsName lower x = h)
      ∧ (∀ svcId x p ctx n ip,
          (Call.register svcId x p ctx n, Outcome.registered ip none) ∈ past →
          ∃ e, mapLookup dns.hostnameMap (normalizeDnsName lower x) = some e ∧ e.ip = ip))
    (hs : step lower K dns c = some (dns', o)) :
    (∀ h e, mapLookup dns'.hostnameMap h = some e →
        ∃ svcId x p ctx n,
          (Call.register svcId x p ctx n, Outcome.registered e.ip none) ∈ past ++ [(c, o)]
          ∧ normalizeDnsName lower x = h)
      ∧ (∀ svcId x p ctx n ip,
          (Call.register svcId x p ctx n, Outcome.registered ip none) ∈ past ++ [(c, o)] →
          ∃ e, mapLookup dns'.hostnameMap (normalizeDnsName lower x) = some e ∧ e.ip = ip) := by
  obtain ⟨h1, h2⟩ := hinv
  have old1 : ∀ h e, mapLookup dns.hostnameMap h = some e →
      ∃ svcId x p ctx n,
        (Call.register svcId x p ctx n, Outcome.registered e.ip none) ∈ past ++ [(c, o)]
        ∧ normalizeDnsName lower x = h := by
    intro h e he
    obtain ⟨svcId, x, p, ctx, n, hmem, hx⟩ := h1 h e he
    exact ⟨svcId, x, p, ctx, n, List.mem_append_left _ hmem, hx⟩
  cases c with
  | register svcId0 x0 p0 ctx0 n0 =>
    rcases RegisterService_cases lower K dns svcId0 x0 p0 ctx0 n0 hinit with
      ⟨hnone, h⟩ | ⟨foundIp, hsome, h⟩ | ⟨foundIp, err, hsome, h⟩
    · rw [step_register _ _ _ _ _ _ _ _ _ _ _ h] at hs
      simp only [Option.some.injEq, Prod.mk.injEq] at hs
      obtain ⟨rfl, rfl⟩ := hs
      refine ⟨?_, ?_⟩
      · intro h e he
        by_cases hk : h = normalizeDnsName lower x0
        · subst hk
          simp only [mapLookup_mapInsert_self, Option.some.injEq] at he
          subst he
          exact ⟨svcId0, x0, p0, ctx0, n0, by simp, rfl⟩
        · simp only [mapLookup_mapInsert_of_ne _ _ _ _ hk] at he
          exact old1 h e he
      · intro svcId x p ctx n ip hmem
        rcases List.mem_append.mp hmem with hpast | hnew
        · obtain ⟨e, he, hip⟩ := h2 svcId x p ctx n ip hpast
          have hk : normalizeDnsName lower x ≠ normalizeDnsName lower x0 := by
            intro heq
            rw [heq, hnone] at he
            cases he
          exact ⟨e, by simpa only [mapLookup_mapInsert_of_ne _ _ _ _ hk] using he, hip⟩
        · simp only [List.mem_singleton, Prod.mk.injEq, Call.register.injEq,
            Outcome.registered.injEq] at hnew
          obtain ⟨⟨_, rfl, _, _, _⟩, rfl, _⟩ := hnew
          exact ⟨_, mapLookup_mapInsert_self _ _ _, rfl⟩
    · rw [step_register _ _ _ _ _ _ _ _ _ _ _ h] at hs
      simp only [Option.some.injEq, Prod.mk.injEq] at hs
      obtain ⟨rfl, rfl⟩ := hs
      refine ⟨old1, ?_⟩
      intro svcId x p ctx n ip hmem
      rcases List.mem_append.mp hmem with hpast | hnew
      · exact h2 svcId x p ctx n ip hpast
      · simp only [List.mem_singleton, Prod.mk.injEq, Call.register.injEq,
          Outcome.registered.injEq] at hnew
        obtain ⟨⟨_, rfl, _, _, _⟩, rfl, _⟩ := hnew
        exact ⟨foundIp, hsome, rfl⟩
    · rw [step_register _ _ _ _ _ _ _ _ _ _ _ h] at hs
      simp only [Option.some.injEq, Prod.mk.injEq] at hs
      obtain ⟨rfl, rfl⟩ := hs
      refine ⟨old1, ?_⟩
      intro svcId x p ctx n ip hmem
      rcases List.mem_append.mp hmem with hpast | hnew
      · exact h2 svcId x p ctx n ip hpast
      · simp only [List.mem_singleton, Prod.mk.injEq, Call.register.injEq,
          Outcome.registered.injEq] at hnew
        obtain ⟨⟨_, rfl, _, _, _⟩, rfl, _⟩ := hnew
        exact ⟨foundIp, hsome, rfl⟩
  | deregister visit ctx0 name0 =>
    simp only [step, Option.some.injEq, Prod.mk.injEq] at hs
    obtain ⟨rfl, rfl⟩ := hs
    have hsame : (DeregisterService dns visit ctx0 name0).hostnameMap = dns.hostnameMap := by
      rcases DeregisterService_cases dns visit ctx0 name0 with h | ⟨_, _, _, _, _, _, h⟩ <;>
      rw [h]
    rw [hsame]
    refine ⟨old1, ?_⟩
    intro svcId x p ctx n ip hmem
    rcases List.mem_append.mp hmem with hpast | hnew
    · exact h2 svcId x p ctx n ip hpast
    · simp at hnew
  | resolve toResolve =>
    simp only [step, Option.some.injEq, Prod.mk.injEq] at hs
    obtain ⟨rfl, rfl⟩ := hs
    refine ⟨old1, ?_⟩
    intro svcId x p ctx n ip hmem
    rcases List.mem_append.mp hmem with hpast | hnew
    · exact h2 svcId x p ctx n ip hpast
    · simp at hnew

/-- C11 (Resolve reflects the registration history). From a directory just initialised by
`DnsInit`, every sequence of `RegisterService`, `DeregisterService` and `Resolve` calls returns
one outcome per call, and in the state it reaches: `Resolve(x)` is nil when no `RegisterService`
call of the sequence for a hostname with the normalized form of `x` succeeded; `Resolve(x)` is
the address returned by each successful `RegisterService` call for a hostname with the
normalized form of `x` (so they all returned one address), whatever `DeregisterService` calls
the sequence holds; and a `Resolve` call leaves the state as it is. -/
theorem C11_Resolve_reflects_history (lower : Char → Char) (K : Constants) (i : IP)
    (maskBits : Int) (dns0 : dnsImpl) (calls : List Call)
    (hinit : DnsInit DNS i maskBits = some dns0) :
    ∃ dns outs, run lower K dns0 calls = some (dns, outs) ∧ outs.length = calls.length
      ∧ (∀ x, (∀ svcId h p ctx n ip,
            (Call.register svcId h p ctx n, Outcome.registered ip none) ∈ calls.zip outs →
            normalizeDnsName lower h ≠ normalizeDnsName lower x) →
          Resolve lower dns x = [])
      ∧ (∀ x svcId h p ctx n ip,
          (Call.register svcId h p ctx n, Outcome.registered ip none) ∈ calls.zip outs →
          normalizeDnsName lower h = normalizeDnsName lower x → Resolve lower dns x = ip)
      ∧ (∀ x, step lower K dns (.resolve x) = some (dns, .resolved (Resolve lower dns x))) := by
  obtain ⟨hdone, _, _, hmap⟩ := DnsInit_fresh DNS dns0 i maskBits rfl hinit
  obtain ⟨dns, outs, hrun, _, hlen, hinv1, hinv2⟩ :=
    run_invariant lower K
      (fun dns past =>
        (∀ h e, mapLookup dns.hostnameMap h = some e →
          ∃ svcId x p ctx n, (Call.register svcId x p ctx n, Outcome.registered e.ip none) ∈ past
            ∧ normalizeDnsName lower x = h)
        ∧ (∀ svcId x p ctx n ip,
            (Call.register svcId x p ctx n, Outcome.registered ip none) ∈ past →
            ∃ e, mapLookup dns.hostnameMap (normalizeDnsName lower x) = some e ∧ e.ip = ip))
      (fun dns past c dns' o h1 h2 h3 => step_hostnameMap lower K dns past c dns' o h1 h2 h3)
      calls dns0 [] hdone
      ⟨by simp [hmap, mapLookup], by simp⟩
  simp only [List.nil_append] at hinv1 hinv2
  refine ⟨dns, outs, hrun, hlen, ?_, ?_, fun x => rfl⟩
  · intro x hno
    cases hl : mapLookup dns.hostnameMap (normalizeDnsName lower x) with
    | none => simp only [Resolve, hl]
    | some e =>
      obtain ⟨svcId, h, p, ctx, n, hmem, hx⟩ := hinv1 _ e hl
      exact absurd hx (hno svcId h p ctx n e.ip hmem)
  · intro x svcId h p ctx n ip hmem hx
    obtain ⟨e, he, hip⟩ := hinv2 svcId h p ctx n ip hmem
    rw [hx] at he
    simp only [Resolve, he, hip]

/-- C11 at a concrete input: after `DnsInit("100.64.0.0", 24)`, a registration of
`api.internal:443`, its deregistration and a `Resolve`, the name `API.internal.` still resolves
to 100.64.0.3 and the unregistered name `other.internal` resolves to nil. -/
theorem C11_Resolve_reflects_history_witness :
    DnsInit DNS [100, 64, 0, 0] 24 = some initialised24
    ∧ (run asciiToLower sampleConstants initialised24
        [.register "svc1" "api.internal" 443 sessionN1 "api",
         .deregister ["api.internal.58 443"] sessionN1 "api",
         .resolve "API.internal.", .resolve "other.internal"]).map Prod.snd
      = some [.registered [100, 64, 0, 3] none, .deregistered, .resolved [100, 64, 0, 3],
              .resolved []]
    ∧ ∃ dns outs, run asciiToLower sampleConstants initialised24
          [.register "svc1" "api.internal" 443 sessionN1 "api",
           .deregister ["api.internal.58 443"] sessionN1 "api",
           .resolve "API.internal.", .resolve "other.internal"] = some (dns, outs)
      ∧ outs.length = [Call.register "svc1" "api.internal" 443 sessionN1 "api",
           .deregister ["api.internal.58 443"] sessionN1 "api",
           .resolve "API.internal.", .resolve "other.internal"].length
      ∧ (∀ x, (∀ svcId h p ctx n ip,
            (Call.register svcId h p ctx n, Outcome.registered ip none) ∈
              [Call.register "svc1" "api.internal" 443 sessionN1 "api",
               .deregister ["api.internal.58 443"] sessionN1 "api",
               .resolve "API.internal.", .resolve "other.internal"].zip outs →
            normalizeDnsName asciiToLower h ≠ normalizeDnsName asciiToLower x) →
          Resolve asciiToLower dns x = [])
      ∧ (∀ x svcId h p ctx n ip,
          (Call.register svcId h p ctx n, Outcome.registered ip none) ∈
            [Call.register "svc1" "api.internal" 443 sessionN1 "api",
             .deregister ["api.internal.58 443"] sessionN1 "api",
             .resolve "API.internal.", .resolve "other.internal"].zip outs →
          normalizeDnsName asciiToLower h = normalizeDnsName asciiToLower x →
          Resolve asciiToLower dns x = ip)
      ∧ (∀ x, step asciiToLower sampleConstants dns (.resolve x)
          = some (dns, .resolved (Resolve asciiToLower dns x))) :=
  ⟨by decide, by decide,
   C11_Resolve_reflects_history asciiToLower sampleConstants [100, 64, 0, 0] 24 initialised24
     _ (by decide)⟩

/-! ## `DeregisterService` -/

/-- When no visited entry has the context pointer and the name, the state stays as it is. -/
theorem DeregisterService_no_match (dns : dnsImpl) (visit : List String) (ctx : CZitiCtx)
    (name : String)
    (hno : ∀ k ∈ visit, ∀ sc, mapLookup dns.serviceMap k = some sc →
      ¬ (sc.ctx.addr = ctx.addr ∧ sc.name = name)) :
    DeregisterService dns visit ctx name = dns := by
  induction visit with
  | nil => rfl
  | cons k rest ih =>
    have hrest := ih (fun k' hk' => hno k' (List.mem_cons_of_mem _ hk'))
    unfold DeregisterService
    cases hk : mapLookup dns.serviceMap k with
    | none => exact hrest
    | some sc =>
      simp only []
      rw [if_neg (hno k (List.mem_cons_self _ _) sc hk)]
      exact hrest

/-- When one key only has an entry with the context pointer and the name and that key is
visited, the call acts on that key, wherever it stands in the visiting order: the entry is
deleted when its count less one is below 1, and nothing is written otherwise. -/
theorem DeregisterService_unique (dns : dnsImpl) (visit : List String) (ctx : CZitiCtx)
    (name : String) (k0 : String) (sc0 : ctxService)
    (hk0 : mapLookup dns.serviceMap k0 = some sc0)
    (hm0 : sc0.ctx.addr = ctx.addr ∧ sc0.name = name)
    (huniq : ∀ k sc, mapLookup dns.serviceMap k = some sc → sc.ctx.addr = ctx.addr →
      sc.name = name → k = k0)
    (hmem : k0 ∈ visit) :
    DeregisterService dns visit ctx name =
      if sc0.count - 1 < (1 : Int) then { dns with serviceMap := mapDelete dns.serviceMap k0 }
      else dns := by
  induction visit with
  | nil => simp at hmem
  | cons k rest ih =>
    unfold DeregisterService
    cases hk : mapLookup dns.serviceMap k with
    | none =>
      simp only []
      have hne : k0 ≠ k := by
        intro h
        rw [h, hk] at hk0
        cases hk0
      rcases List.mem_cons.mp hmem with h | h
      · exact absurd h hne
      · exact ih h
    | some sc =>
      simp only []
      by_cases hm : sc.ctx.addr = ctx.addr ∧ sc.name = name
      · have hkk : k = k0 := huniq k sc hk hm.1 hm.2
        subst hkk
        rw [hk] at hk0
        cases hk0
        rw [if_pos hm]
      · have hne : k0 ≠ k := by
          intro h
          rw [h, hk] at hk0
          cases hk0
          exact hm hm0
        rw [if_neg hm]
        rcases List.mem_cons.mp hmem with h | h
        · exact absurd h hne
        · exact ih h

/-- A key that reads a value is one of the keys of the map. -/
theorem mapLookup_mem_keys {V : Type} (m : List (String × V)) (k : String) (v : V)
    (h : mapLookup m k = some v) : k ∈ mapKeys m := by
  induction m with
  | nil => simp [mapLookup] at h
  | cons e rest ih =>
    obtain ⟨k', v'⟩ := e
    by_cases hk : k' = k
    · simp [mapKeys, hk]
    · simp only [mapLookup, hk, if_false] at h
      have := ih h
      simp only [mapKeys, List.map_cons, List.mem_cons] at this ⊢
      exact Or.inr this

/-- C18 (at most one match per session+name) fails as stated. After
`DnsInit("100.64.0.0", 24)` the session `sessionN1` registers the service name `api` for
`api.internal:443` and for `api.internal:8443`; both calls succeed and the reached state
`twoPorts` holds two `serviceMap` entries with that session and that name. `range` may visit
the two keys in either order, and `DeregisterService(sessionN1, "api")` deletes the key it
visits first, so the two orders end in different states. -/
theorem C18_two_entries_for_one_session_and_name :
    runFromInit asciiToLower sampleConstants [100, 64, 0, 0] 24
        [.register "svc1" "api.internal" 443 sessionN1 "api",
         .register "svc1" "api.internal" 8443 sessionN1 "api"]
      = some (twoPorts, [.registered [100, 64, 0, 3] none, .registered [100, 64, 0, 3] none])
    ∧ mapLookup twoPorts.serviceMap "api.internal.58 443"
      = some { ctx := sessionN1, name := "api", serviceId := "svc1", count := 1 }
    ∧ mapLookup twoPorts.serviceMap "api.internal.58 8443"
      = some { ctx := sessionN1, name := "api", serviceId := "svc1", count := 1 }
    ∧ RangeOrder twoPorts ["api.internal.58 443", "api.internal.58 8443"]
    ∧ RangeOrder twoPorts ["api.internal.58 8443", "api.internal.58 443"]
    ∧ mapKeys (DeregisterService twoPorts ["api.internal.58 443", "api.internal.58 8443"]
        sessionN1 "api").serviceMap = ["api.internal.58 8443"]
    ∧ mapKeys (DeregisterService twoPorts ["api.internal.58 8443", "api.internal.58 443"]
        sessionN1 "api").serviceMap = ["api.internal.58 443"]
    ∧ DeregisterService twoPorts ["api.internal.58 443", "api.internal.58 8443"] sessionN1 "api"
      ≠ DeregisterService twoPorts ["api.internal.58 8443", "api.internal.58 443"] sessionN1
          "api" := by
  refine ⟨by decide, by decide, by decide, ?_, ?_, by decide, by decide, by decide⟩
  · exact List.Perm.refl _
  · exact List.Perm.swap _ _ _

/-- When no other key is bound to the session and the name, every entry under another key
differs in session or name. -/
theorem otherKeyBound_false (dns : dnsImpl) (key : String) (ctx : CZitiCtx) (name : String)
    (h : otherKeyBound dns key ctx name = false) (k : String) (sc : ctxService)
    (hne : k ≠ key) (hk : mapLookup dns.serviceMap k = some sc) :
    ¬ (sc.ctx.addr = ctx.addr ∧ sc.name = name) := by
  intro hm
  have : otherKeyBound dns key ctx name = true := by
    unfold otherKeyBound
    rw [List.any_eq_true]
    exact ⟨k, mapLookup_mem_keys _ _ _ hk, by simp [hne, hk, hm]⟩
  rw [h] at this
  cases this

/-- When another key is bound to the session and the name, there is such a key. -/
theorem otherKeyBound_true (dns : dnsImpl) (key : String) (ctx : CZitiCtx) (name : String)
    (h : otherKeyBound dns key ctx name = true) :
    ∃ k sc, k ≠ key ∧ mapLookup dns.serviceMap k = some sc ∧ sc.ctx.addr = ctx.addr
      ∧ sc.name = name := by
  unfold otherKeyBound at h
  rw [List.any_eq_true] at h
  obtain ⟨k, _, hk⟩ := h
  cases hl : mapLookup dns.serviceMap k with
  | none => simp [hl] at hk
  | some sc =>
    simp only [hl, Bool.and_eq_true, decide_eq_true_eq] at hk
    exact ⟨k, sc, hk.1, hl, hk.2.1, hk.2.2⟩

/-- Writing an entry under `key` keeps `SingleMatch` when no other key is bound to the session
and the name of the entry. -/
theorem SingleMatch_mapInsert (m : List (String × ctxService)) (key : String) (new : ctxService)
    (hsingle : SingleMatch m)
    (hother : ∀ k sc, k ≠ key → mapLookup m k = some sc →
      ¬ (sc.ctx.addr = new.ctx.addr ∧ sc.name = new.name)) :
    SingleMatch (mapInsert m key new) := by
  intro k1 k2 sc1 sc2 h1 h2 ha hn
  by_cases e1 : k1 = key
  · by_cases e2 : k2 = key
    · rw [e1, e2]
    · subst e1
      simp only [mapLookup_mapInsert_self, Option.some.injEq] at h1
      subst h1
      simp only [mapLookup_mapInsert_of_ne _ _ _ _ e2] at h2
      exact absurd ⟨ha.symm, hn.symm⟩ (hother k2 sc2 e2 h2)
  · by_cases e2 : k2 = key
    · subst e2
      simp only [mapLookup_mapInsert_self, Option.some.injEq] at h2
      subst h2
      simp only [mapLookup_mapInsert_of_ne _ _ _ _ e1] at h1
      exact absurd ⟨ha, hn⟩ (hother k1 sc1 e1 h1)
    · simp only [mapLookup_mapInsert_of_ne _ _ _ _ e1] at h1
      simp only [mapLookup_mapInsert_of_ne _ _ _ _ e2] at h2
      exact hsingle k1 k2 sc1 sc2 h1 h2 ha hn

/-- Deleting a key keeps `SingleMatch`. -/
theorem SingleMatch_mapDelete (m : List (String × ctxService)) (k0 : String)
    (hsingle : SingleMatch m) : SingleMatch (mapDelete m k0) := by
  intro k1 k2 sc1 sc2 h1 h2 ha hn
  by_cases e1 : k1 = k0
  · subst e1
    simp only [mapLookup_mapDelete_self] at h1
    cases h1
  · by_cases e2 : k2 = k0
    · subst e2
      simp only [mapLookup_mapDelete_self] at h2
      cases h2
    · simp only [mapLookup_mapDelete_of_ne _ _ _ e1] at h1
      simp only [mapLookup_mapDelete_of_ne _ _ _ e2] at h2
      exact hsingle k1 k2 sc1 sc2 h1 h2 ha hn

/-- A step that does not give a session and name a second entry keeps `SingleMatch`. -/
theorem step_SingleMatch (lower : Char → Char) (K : Constants) (dns : dnsImpl) (c : Call)
    (dns' : dnsImpl) (o : Outcome) (hinit : dns.initDone = true)
    (hsingle : SingleMatch dns.serviceMap) (hno : writesSecondKey lower dns c = false)
    (hs : step lower K dns c = some (dns', o)) : SingleMatch dns'.serviceMap := by
  cases c with
  | register svcId0 x0 p0 ctx0 n0 =>
    cases hhost : mapLookup dns.hostnameMap (normalizeDnsName lower x0) with
    | none =>
      have hob : otherKeyBound dns (serviceKey (normalizeDnsName lower x0) p0) ctx0 n0
          = false := by
        simpa [writesSecondKey, hhost] using hno
      rw [step_register _ _ _ _ _ _ _ _ _ _ _
        (RegisterService_newHost lower K dns svcId0 x0 p0 ctx0 n0 hinit hhost)] at hs
      simp only [Option.some.injEq, Prod.mk.injEq] at hs
      obtain ⟨rfl, rfl⟩ := hs
      exact SingleMatch_mapInsert _ _ _ hsingle (otherKeyBound_false dns _ ctx0 n0 hob)
    | some foundIp =>
      cases hkey : mapLookup dns.serviceMap (serviceKey (normalizeDnsName lower x0) p0) with
      | none =>
        have hob : otherKeyBound dns (serviceKey (normalizeDnsName lower x0) p0) ctx0 n0
            = false := by
          simpa [writesSecondKey, hhost, hkey] using hno
        rw [step_register _ _ _ _ _ _ _ _ _ _ _
          (RegisterService_newPort lower K dns svcId0 x0 p0 ctx0 n0 foundIp hinit hhost hkey)]
          at hs
        simp only [Option.some.injEq, Prod.mk.injEq] at hs
        obtain ⟨rfl, rfl⟩ := hs
        exact SingleMatch_mapInsert _ _ _ hsingle (otherKeyBound_false dns _ ctx0 n0 hob)
      | some foundContext =>
        by_cases hnet : foundIp.network = ctx0.controller
        · by_cases hsvc : foundContext.serviceId = svcId0
          · rw [step_register _ _ _ _ _ _ _ _ _ _ _ (RegisterService_again lower K dns svcId0
              x0 p0 ctx0 n0 foundIp foundContext hinit hhost hkey hnet hsvc)] at hs
            simp only [Option.some.injEq, Prod.mk.injEq] at hs
            obtain ⟨rfl, rfl⟩ := hs
            exact hsingle
          · rw [step_register _ _ _ _ _ _ _ _ _ _ _ (RegisterService_otherService lower K dns
              svcId0 x0 p0 ctx0 n0 foundIp foundContext hinit hhost hkey hnet hsvc)] at hs
            simp only [Option.some.injEq, Prod.mk.injEq] at hs
            obtain ⟨rfl, rfl⟩ := hs
            exact hsingle
        · rw [step_register _ _ _ _ _ _ _ _ _ _ _ (RegisterService_otherNetwork lower K dns
            svcId0 x0 p0 ctx0 n0 foundIp foundContext hinit hhost hkey hnet)] at hs
          simp only [Option.some.injEq, Prod.mk.injEq] at hs
          obtain ⟨rfl, rfl⟩ := hs
          exact hsingle
  | deregister visit ctx0 name0 =>
    simp only [step, Option.some.injEq, Prod.mk.injEq] at hs
    obtain ⟨rfl, rfl⟩ := hs
    rcases DeregisterService_cases dns visit ctx0 name0 with h | ⟨k0, _, _, _, _, _, h⟩
    · rw [h]
      exact hsingle
    · rw [h]
      exact SingleMatch_mapDelete _ k0 hsingle
  | resolve toResolve =>
    simp only [step, Option.some.injEq, Prod.mk.injEq] at hs
    obtain ⟨rfl, rfl⟩ := hs
    exact hsingle

/-- A sequence of calls none of which gives a session and name a second entry returns and
keeps `SingleMatch`. -/
theorem run_SingleMatch (lower : Char → Char) (K : Constants) (calls : List Call) :
    ∀ dns : dnsImpl, dns.initDone = true → SingleMatch dns.serviceMap →
      noSecondKey lower K dns calls = true →
      ∃ dns' outs, run lower K dns calls = some (dns', outs)
        ∧ SingleMatch dns'.serviceMap := by
  induction calls with
  | nil =>
    intro dns _ hsingle _
    exact ⟨dns, [], rfl, hsingle⟩
  | cons c cs ih =>
    intro dns hinit hsingle hno
    obtain ⟨dns1, o, hstep, hinit1⟩ := step_initDone lower K dns c hinit
    simp only [noSecondKey, hstep, Bool.and_eq_true, Bool.not_eq_true'] at hno
    obtain ⟨dns2, outs, hr, h2⟩ :=
      ih dns1 hinit1 (step_SingleMatch lower K dns c dns1 o hinit hsingle hno.1 hstep) hno.2
    exact ⟨dns2, o :: outs, by simp only [run, hstep, hr], h2⟩

/-- The condition `writesSecondKey` is exact: in an initialised state a `RegisterService` call
that meets it ends in a state in which two keys are bound to entries with the session and the
name of the call. -/
theorem writesSecondKey_not_SingleMatch (lower : Char → Char) (K : Constants)
    (dns dns' : dnsImpl) (svcId dnsNameToReg : String) (port : Nat) (ctx : CZitiCtx)
    (svcName : String) (ip : IP) (err : Option RegisterError) (hinit : dns.initDone = true)
    (hw : writesSecondKey lower dns (.register svcId dnsNameToReg port ctx svcName) = true)
    (hres : RegisterService lower K dns svcId dnsNameToReg port ctx svcName
      = some (dns', ip, err)) :
    ¬ SingleMatch dns'.serviceMap := by
  simp only [writesSecondKey, Bool.and_eq_true, Bool.or_eq_true, Option.isNone_iff_eq_none]
    at hw
  obtain ⟨hwrites, hob⟩ := hw
  obtain ⟨k, sc, hne, hk, ha, hn⟩ := otherKeyBound_true dns _ ctx svcName hob
  have hmap : dns'.serviceMap = mapInsert dns.serviceMap
      (serviceKey (normalizeDnsName lower dnsNameToReg) port)
      { ctx := ctx, name := svcName, serviceId := svcId, count := 1 } := by
    cases hhost : mapLookup dns.hostnameMap (normalizeDnsName lower dnsNameToReg) with
    | none =>
      rw [RegisterService_newHost lower K dns svcId dnsNameToReg port ctx svcName hinit hhost]
        at hres
      cases hres
      rfl
    | some foundIp =>
      have hkey : mapLookup dns.serviceMap
          (serviceKey (normalizeDnsName lower dnsNameToReg) port) = none := by
        rcases hwrites with h | h
        · rw [hhost] at h
          cases h
        · exact h
      rw [RegisterService_newPort lower K dns svcId dnsNameToReg port ctx svcName foundIp
        hinit hhost hkey] at hres
      cases hres
      rfl
  intro hsingle
  have h1 : mapLookup dns'.serviceMap (serviceKey (normalizeDnsName lower dnsNameToReg) port)
      = some { ctx := ctx, name := svcName, serviceId := svcId, count := 1 } := by
    rw [hmap]
    exact mapLookup_mapInsert_self _ _ _
  have h2 : mapLookup dns'.serviceMap k = some sc := by
    rw [hmap, mapLookup_mapInsert_of_ne _ _ _ _ hne]
    exact hk
  exact hne (hsingle _ _ _ _ h2 h1 ha hn)

/-- The condition `noSecondKey` passes to the first `n` calls of the sequence. -/
theorem noSecondKey_take (lower : Char → Char) (K : Constants) (calls : List Call) :
    ∀ (dns : dnsImpl) (n : Nat), noSecondKey lower K dns calls = true →
      noSecondKey lower K dns (calls.take n) = true := by
  induction calls with
  | nil =>
    intro dns n _
    simp [noSecondKey]
  | cons c cs ih =>
    intro dns n h
    cases n with
    | zero => simp [noSecondKey]
    | succ n =>
      simp only [noSecondKey, Bool.and_eq_true, Bool.not_eq_true'] at h
      simp only [List.take_succ_cons, noSecondKey, Bool.and_eq_true, Bool.not_eq_true']
      refine ⟨h.1, ?_⟩
      cases hstep : step lower K dns c with
      | none => rfl
      | some r =>
        obtain ⟨dns1, o⟩ := r
        have h2 := h.2
        simp only [hstep] at h2
        exact ih dns1 n h2

/-- When every state a sequence passes through keeps `SingleMatch`, no call of the sequence
gives a session and name a second entry. -/
theorem noSecondKey_of_SingleMatch (lower : Char → Char) (K : Constants) (calls : List Call) :
    ∀ dns : dnsImpl, dns.initDone = true →
      (∀ n, ∃ dns' outs, run lower K dns (calls.take n) = some (dns', outs)
        ∧ SingleMatch dns'.serviceMap) →
      noSecondKey lower K dns calls = true := by
  induction calls with
  | nil =>
    intro dns _ _
    rfl
  | cons c cs ih =>
    intro dns hinit hall
    obtain ⟨dns1, o, hstep, hinit1⟩ := step_initDone lower K dns c hinit
    have hfirst : SingleMatch dns1.serviceMap := by
      obtain ⟨d, os, hr, hs⟩ := hall 1
      simp only [List.take_succ_cons, List.take_zero, run, hstep, Option.some.injEq,
        Prod.mk.injEq] at hr
      rw [hr.1]
      exact hs
    have hw : writesSecondKey lower dns c = false := by
      cases hb : writesSecondKey lower dns c with
      | false => rfl
      | true =>
        cases c with
        | register svcId0 x0 p0 ctx0 n0 =>
          rcases RegisterService_cases lower K dns svcId0 x0 p0 ctx0 n0 hinit with
            ⟨_, h⟩ | ⟨_, _, h⟩ | ⟨_, _, _, h⟩ <;>
          · have hs := step_register _ _ _ _ _ _ _ _ _ _ _ h
            rw [hstep] at hs
            simp only [Option.some.injEq, Prod.mk.injEq] at hs
            obtain ⟨hd, _⟩ := hs
            subst hd
            exact absurd hfirst
              (writesSecondKey_not_SingleMatch lower K _ _ svcId0 x0 p0 ctx0 n0 _ _ hinit
                hb h)
        | deregister visit ctx0 name0 => simp [writesSecondKey] at hb
        | resolve toResolve => simp [writesSecondKey] at hb
    have hrest : noSecondKey lower K dns1 cs = true := by
      apply ih dns1 hinit1
      intro n
      obtain ⟨d, os, hr, hs⟩ := hall (n + 1)
      simp only [List.take_succ_cons, run, hstep] at hr
      cases hr1 : run lower K dns1 (cs.take n) with
      | none => simp [hr1] at hr
      | some r =>
        obtain ⟨d1, os1⟩ := r
        simp only [hr1, Option.some.injEq, Prod.mk.injEq] at hr
        exact ⟨d1, os1, rfl, by rw [hr.1]; exact hs⟩
    simp only [noSecondKey, hstep, hw, hrest, Bool.not_false, Bool.and_self]

/-- C18 as amended. From a directory just initialised by `DnsInit`, let no call of a sequence
of `RegisterService`, `DeregisterService` and `Resolve` calls be a `RegisterService` that
writes the entry of its `hostname:port` key while, at that moment, another key is bound to an
entry with the same session and the same service name (`noSecondKey`; a name may be
registered under another key once its entry has been deregistered). Then the sequence
returns, and in the state it reaches any two `serviceMap` entries with the same session and
the same name stand under the same key, so at most one entry has a given session and name,
and `DeregisterService` ends in the same state for every order in which `range` visits the
map. The condition is exact: it holds if and only if after every number of calls of the
sequence at most one entry has a given session and name. -/
theorem C18_single_match_per_service (lower : Char → Char) (K : Constants) (i : IP)
    (maskBits : Int) (dns0 : dnsImpl) (calls : List Call)
    (hinit : DnsInit DNS i maskBits = some dns0) :
    (noSecondKey lower K dns0 calls = true →
      ∃ dns outs, run lower K dns0 calls = some (dns, outs)
        ∧ (∀ k1 k2 sc1 sc2, mapLookup dns.serviceMap k1 = some sc1 →
            mapLookup dns.serviceMap k2 = some sc2 → sc1.ctx.addr = sc2.ctx.addr →
            sc1.name = sc2.name → k1 = k2)
        ∧ (∀ visit1 visit2 ctx name, RangeOrder dns visit1 → RangeOrder dns visit2 →
            DeregisterService dns visit1 ctx name = DeregisterService dns visit2 ctx name))
    ∧ (noSecondKey lower K dns0 calls = true ↔
        ∀ n, ∃ dns outs, run lower K dns0 (calls.take n) = some (dns, outs)
          ∧ (∀ k1 k2 sc1 sc2, mapLookup dns.serviceMap k1 = some sc1 →
              mapLookup dns.serviceMap k2 = some sc2 → sc1.ctx.addr = sc2.ctx.addr →
              sc1.name = sc2.name → k1 = k2)) := by
  obtain ⟨hdone, _, hsm, _⟩ := DnsInit_fresh DNS dns0 i maskBits rfl hinit
  have hstart : SingleMatch dns0.serviceMap := by
    intro k1 k2 sc1 sc2 h1
    simp [hsm, mapLookup] at h1
  refine ⟨?_, ?_, ?_⟩
  · intro hno
    obtain ⟨dns, outs, hrun, huniq⟩ := run_SingleMatch lower K calls dns0 hdone hstart hno
    refine ⟨dns, outs, hrun, huniq, ?_⟩
    intro visit1 visit2 ctx name hv1 hv2
    by_cases hex : ∃ k ∈ mapKeys dns.serviceMap, ∃ sc, mapLookup dns.serviceMap k = some sc
        ∧ sc.ctx.addr = ctx.addr ∧ sc.name = name
    · obtain ⟨k0, hk0mem, sc0, hk0, hm0⟩ := hex
      have hu : ∀ k sc, mapLookup dns.serviceMap k = some sc → sc.ctx.addr = ctx.addr →
          sc.name = name → k = k0 := by
        intro k sc hk ha hn
        exact huniq k k0 sc sc0 hk hk0 (by rw [ha, hm0.1]) (by rw [hn, hm0.2])
      rw [DeregisterService_unique dns visit1 ctx name k0 sc0 hk0 hm0 hu
          (hv1.mem_iff.mpr hk0mem),
        DeregisterService_unique dns visit2 ctx name k0 sc0 hk0 hm0 hu
          (hv2.mem_iff.mpr hk0mem)]
    · have hnone : ∀ visit, RangeOrder dns visit → ∀ k ∈ visit, ∀ sc,
          mapLookup dns.serviceMap k = some sc →
          ¬ (sc.ctx.addr = ctx.addr ∧ sc.name = name) := by
        intro visit hv k hk sc hsc hm
        exact hex ⟨k, hv.mem_iff.mp hk, sc, hsc, hm⟩
      rw [DeregisterService_no_match dns visit1 ctx name (hnone visit1 hv1),
        DeregisterService_no_match dns visit2 ctx name (hnone visit2 hv2)]
  · intro hno n
    exact run_SingleMatch lower K (calls.take n) dns0 hdone hstart
      (noSecondKey_take lower K calls dns0 n hno)
  · intro hall
    exact noSecondKey_of_SingleMatch lower K calls dns0 hdone hall

/-- C18 as amended, at a concrete input: after `DnsInit("100.64.0.0", 24)`, `sessionN1`
registers the name `api` for `api.internal:443`, deregisters it and registers the same name
for `api.internal:8443`; no call gives the name a second entry, and the sequence where the
deregistration is left out does. -/
theorem C18_single_match_per_service_witness :
    DnsInit DNS [100, 64, 0, 0] 24 = some initialised24
    ∧ noSecondKey asciiToLower sampleConstants initialised24
        [.register "svc1" "api.internal" 443 sessionN1 "api",
         .deregister ["api.internal.58 443"] sessionN1 "api",
         .register "svc1" "api.internal" 8443 sessionN1 "api"] = true
    ∧ noSecondKey asciiToLower sampleConstants initialised24
        [.register "svc1" "api.internal" 443 sessionN1 "api",
         .register "svc1" "api.internal" 8443 sessionN1 "api"] = false
    ∧ (run asciiToLower sampleConstants initialised24
        [.register "svc1" "api.internal" 443 sessionN1 "api",
         .deregister ["api.internal.58 443"] sessionN1 "api",
         .register "svc1" "api.internal" 8443 sessionN1 "api"]).map
          (fun r => mapKeys r.1.serviceMap) = some ["api.internal.58 8443"]
    ∧ ((noSecondKey asciiToLower sampleConstants initialised24
          [.register "svc1" "api.internal" 443 sessionN1 "api",
           .deregister ["api.internal.58 443"] sessionN1 "api",
           .register "svc1" "api.internal" 8443 sessionN1 "api"] = true →
        ∃ dns outs, run asciiToLower sampleConstants initialised24
            [.register "svc1" "api.internal" 443 sessionN1 "api",
             .deregister ["api.internal.58 443"] sessionN1 "api",
             .register "svc1" "api.internal" 8443 sessionN1 "api"]
            = some (dns, outs)
          ∧ (∀ k1 k2 sc1 sc2, mapLookup dns.serviceMap k1 = some sc1 →
              mapLookup dns.serviceMap k2 = some sc2 → sc1.ctx.addr = sc2.ctx.addr →
              sc1.name = sc2.name → k1 = k2)
          ∧ (∀ visit1 visit2 ctx name, RangeOrder dns visit1 → RangeOrder dns visit2 →
              DeregisterService dns visit1 ctx name = DeregisterService dns visit2 ctx name))
      ∧ (noSecondKey asciiToLower sampleConstants initialised24
          [.register "svc1" "api.internal" 443 sessionN1 "api",
           .deregister ["api.internal.58 443"] sessionN1 "api",
           .register "svc1" "api.internal" 8443 sessionN1 "api"] = true ↔
          ∀ n, ∃ dns outs, run asciiToLower sampleConstants initialised24
              ([Call.register "svc1" "api.internal" 443 sessionN1 "api",
                .deregister ["api.internal.58 443"] sessionN1 "api",
                .register "svc1" "api.internal" 8443 sessionN1 "api"].take n)
              = some (dns, outs)
            ∧ (∀ k1 k2 sc1 sc2, mapLookup dns.serviceMap k1 = some sc1 →
                mapLookup dns.serviceMap k2 = some sc2 → sc1.ctx.addr = sc2.ctx.addr →
                sc1.name = sc2.name → k1 = k2))) :=
  ⟨by decide, by decide, by decide, by decide,
   C18_single_match_per_service asciiToLower sampleConstants [100, 64, 0, 0] 24 initialised24
     [.register "svc1" "api.internal" 443 sessionN1 "api",
      .deregister ["api.internal.58 443"] sessionN1 "api",
      .register "svc1" "api.internal" 8443 sessionN1 "api"] (by decide)⟩

end Cziti

namespace Runtime

/-! ## The identity list -/

theorem findFrom_spec (fingerprint : String) (l : List Identity) (i : Nat) :
    i ≤ (findFrom fingerprint l i).1
    ∧ (findFrom fingerprint l i).1 ≤ i + l.length
    ∧ (findFrom fingerprint l i).2 = l[(findFrom fingerprint l i).1 - i]?
    ∧ (∀ j, j < (findFrom fingerprint l i).1 - i → ∀ n, l[j]? = some n →
        n.FingerPrint ≠ fingerprint)
    ∧ (∀ n, (findFrom fingerprint l i).2 = some n → n.FingerPrint = fingerprint) := by
  induction l generalizing i with
  | nil => simp [findFrom]
  | cons a rest ih =>
    by_cases h : a.FingerPrint = fingerprint
    · simp [findFrom, h]
    · obtain ⟨h1, h2, h3, h4, h5⟩ := ih (i + 1)
      simp only [findFrom, h, if_false]
      have hpos : (findFrom fingerprint rest (i + 1)).1 - i
          = ((findFrom fingerprint rest (i + 1)).1 - (i + 1)) + 1 := by omega
      refine ⟨by omega, by simp only [List.length_cons]; omega, ?_, ?_, h5⟩
      · rw [hpos, List.getElem?_cons_succ]
        exact h3
      · intro j hj n hn
        cases j with
        | zero =>
          simp only [List.getElem?_cons_zero, Option.some.injEq] at hn
          subst hn
          exact h
        | succ j =>
          rw [List.getElem?_cons_succ] at hn
          exact h4 j (by omega) n hn

/-- C20 (RemoveByFingerprint removes exactly the first match). For every identity list and
fingerprint `f`, `Find(f)` returns an index `i` at most `len(Identities)` together with the
element at that index (nil when `i` is the length); no identity before `i` has fingerprint `f`,
the identity at `i` has it, and `i` is the length exactly when no identity has fingerprint `f`.
`RemoveByFingerprint(f)` yields the list with the element at index `i` erased and all others in
their order, which is the list itself when no identity has fingerprint `f`; the other fields
stay. -/
theorem C20_RemoveByFingerprint_removes_first_match (t : TunnelerState) (f : String) :
    (t.Find f).1 ≤ t.Identities.length
    ∧ (t.Find f).2 = t.Identities[(t.Find f).1]?
    ∧ (∀ j, j < (t.Find f).1 → ∀ n, t.Identities[j]? = some n → n.FingerPrint ≠ f)
    ∧ (∀ n, (t.Find f).2 = some n → n.FingerPrint = f)
    ∧ ((t.Find f).1 = t.Identities.length ↔ ∀ n ∈ t.Identities, n.FingerPrint ≠ f)
    ∧ (t.RemoveByFingerprint f).Identities = t.Identities.eraseIdx (t.Find f).1
    ∧ ((∀ n ∈ t.Identities, n.FingerPrint ≠ f) → t.RemoveByFingerprint f = t)
    ∧ (t.RemoveByFingerprint f).Active = t.Active
    ∧ (t.RemoveByFingerprint f).Duration = t.Duration := by
  have key := findFrom_spec f t.Identities 0
  rw [show findFrom f t.Identities 0 = t.Find f from rfl] at key
  obtain ⟨_, h2, h3, h4, h5⟩ := key
  simp only [Nat.zero_add, Nat.sub_zero] at h2 h3 h4
  have hiff : (t.Find f).1 = t.Identities.length ↔ ∀ n ∈ t.Identities, n.FingerPrint ≠ f := by
    constructor
    · intro hlen n hn
      obtain ⟨j, hj, rfl⟩ := List.getElem_of_mem hn
      exact h4 j (by omega) _ (List.getElem?_eq_getElem hj)
    · intro hall
      by_contra hne
      have hlt : (t.Find f).1 < t.Identities.length := by omega
      have hget : (t.Find f).2 = some (t.Identities[(t.Find f).1]) := by
        rw [h3, List.getElem?_eq_getElem hlt]
      exact hall _ (List.getElem_mem hlt) (h5 _ hget)
  have hrem : (t.RemoveByFingerprint f).Identities = t.Identities.eraseIdx (t.Find f).1 := by
    unfold TunnelerState.RemoveByFingerprint
    by_cases hlt : (t.Find f).1 < t.Identities.length
    · simp only [hlt, if_true]
      exact (List.eraseIdx_eq_take_drop_succ _ _).symm
    · simp only [hlt, if_false]
      exact (List.eraseIdx_of_length_le (by omega)).symm
  refine ⟨h2, h3, h4, h5, hiff, hrem, ?_, ?_, ?_⟩
  · intro hall
    have hlen := hiff.mpr hall
    unfold TunnelerState.RemoveByFingerprint
    simp [hlen]
  · by_cases hlt : (t.Find f).1 < t.Identities.length <;>
      simp [TunnelerState.RemoveByFingerprint, hlt]
  · by_cases hlt : (t.Find f).1 < t.Identities.length <;>
      simp [TunnelerState.RemoveByFingerprint, hlt]

end Runtime
